import Mathlib

/-!
Shallow embedding of the medidown resolution engine (backend/), verified
against the claims about its catalog builder, cache, planners and
per-source resolvers.

Conventions used throughout:
* Python `dict.get(k)` of an optional field is modelled as `Option`;
  a key that is absent and a key bound to `None` are identified.
* Python truthiness of strings (`if s:`) is `s ≠ ""` on present values;
  of integers, `n ≠ 0`.
* Python machine integers are modelled as `Int` (times, sizes, heights);
  fractional bitrates are modelled at integer precision, which preserves
  every ordering fact the claims mention.
* Effectful code (network calls) is modelled by explicit environments and
  by returning the list of network events the call performed.
-/

namespace Medidown

/-- Python `a or b` for an optional string: falsy (`None` or `""`) falls
through to the default. -/
def pyOrS (a : Option String) (b : String) : String :=
  match a with
  | none => b
  | some s => if s = "" then b else s

/-- Python truthiness of an optional string value. -/
def truthyS : Option String → Bool
  | none => false
  | some s => s ≠ ""

/-- Python `a or 0` for an optional integer (absent and 0 both give 0). -/
def orZeroI (a : Option Int) : Int := a.getD 0

/-- Python truthiness of an optional integer value. -/
def truthyI : Option Int → Bool
  | none => false
  | some n => n ≠ 0

/-- Python `a or b` on optional integers: keeps `a` when truthy. -/
def pyOrI (a b : Option Int) : Option Int := if truthyI a then a else b

/-- Python `str(x)` for an optional string, as used on `f.get('format_id')`:
`str(None)` is the literal string `"None"`. -/
def pyStr (a : Option String) : String :=
  match a with
  | none => "None"
  | some s => s

/-- ASCII lower-casing of one character (model of `str.lower` on the ASCII
subset the repository's identifiers and URLs use). -/
def lowerC (c : Char) : Char :=
  if 65 ≤ c.toNat ∧ c.toNat ≤ 90 then Char.ofNat (c.toNat + 32) else c

/-- ASCII upper-casing of one character (model of `str.upper`). -/
def upperC (c : Char) : Char :=
  if 97 ≤ c.toNat ∧ c.toNat ≤ 122 then Char.ofNat (c.toNat - 32) else c

/-- `str.lower` on a character list. -/
def lowerL (l : List Char) : List Char := l.map lowerC

/-- `str.lower` on a string. -/
def lowerS (s : String) : String := ⟨lowerL s.data⟩

/-- `str.upper` on a string. -/
def upperS (s : String) : String := ⟨s.data.map upperC⟩

/-! ## TTL cache (`backend/utils/cache.py`, class `VideoCache`)

The SQLite table `video_cache` keyed by the primary key `url_hash` is
modelled as an association list from the hash to the row.  `_get_url_hash`
is `sha256(url.encode()).hexdigest()[:16]`; the claims do not depend on
which function that is, so the model is parameterised by an arbitrary
`hashFn : String → String` standing for it.  `json.dumps`/`json.loads` are
mutually inverse on the JSON-serializable payloads the cache stores, so the
payload is carried as an opaque value of a type parameter `Data`. -/

structure CacheRow (Data : Type) where
  url : String
  platform : String
  data : Data
  created_at : Int
  accessed_at : Int
  access_count : Int
  deriving Repr, DecidableEq

/-- The cache table: rows indexed by `url_hash` (TEXT PRIMARY KEY). -/
def CacheState (Data : Type) := List (String × CacheRow Data)

/-- Row lookup by primary key. -/
def rowLookup {Data : Type} (k : String) : CacheState Data → Option (CacheRow Data)
  | [] => none
  | (k', r) :: rest => if k' = k then some r else rowLookup k rest

/-- `INSERT OR REPLACE` keyed by `url_hash`: replaces the existing row in
place or appends a fresh one. -/
def rowReplace {Data : Type} (k : String) (r : CacheRow Data) :
    CacheState Data → CacheState Data
  | [] => [(k, r)]
  | (k', r') :: rest =>
    if k' = k then (k', r) :: rest else (k', r') :: rowReplace k r rest

/-- `DELETE FROM video_cache WHERE url_hash = ?`. -/
def rowDelete {Data : Type} (k : String) : CacheState Data → CacheState Data
  | [] => []
  | (k', r') :: rest =>
    if k' = k then rowDelete k rest else (k', r') :: rowDelete k rest

/-- `VideoCache.set` (cache.py lines 101-113): hashes the URL only, then
`INSERT OR REPLACE` the row; `access_count` takes its column default 1. -/
def cacheSet {Data : Type} (hashFn : String → String) (st : CacheState Data)
    (url : String) (d : Data) (platform : String) (now : Int) : CacheState Data :=
  rowReplace (hashFn url)
    { url := url, platform := platform, data := d,
      created_at := now, accessed_at := now, access_count := 1 } st

/-- `VideoCache.get` (cache.py lines 62-99): selects the row whose
`url_hash` and `platform` both match; expired rows (`now - created_at >
ttl_seconds`) are deleted on read and reported as misses; a hit refreshes
`accessed_at` and increments `access_count`. Returns the payload (if any)
and the updated table. -/
def cacheGet {Data : Type} (hashFn : String → String) (ttl : Int)
    (st : CacheState Data) (url : String) (platform : String) (now : Int) :
    Option Data × CacheState Data :=
  let k := hashFn url
  match rowLookup k st with
  | none => (none, st)
  | some row =>
    if row.platform ≠ platform then (none, st)
    else if now - row.created_at > ttl then (none, rowDelete k st)
    else
      (some row.data,
       rowReplace k { row with accessed_at := now,
                               access_count := row.access_count + 1 } st)

/-! ## Raw extractor output (the shapes `yt_dlp.extract_info` returns)

The extractor's format/item dictionaries carry arbitrary optional keys; the
model declares the keys the analysed code reads.  A key that is absent and
a key bound to `None` are identified (the code reads them with `f.get(k)`
or `f.get(k, default)`; the two differ only for explicitly-`None` display
fields, which no claim touches).  Display-only size strings
(`size`, `filesize_mb`, `resolution`) are omitted: no claim mentions them. -/

structure RawFormat where
  format_id : Option String := none
  ext : Option String := none
  height : Option Int := none
  width : Option Int := none
  fps : Option Int := none
  tbr : Option Int := none
  abr : Option Int := none
  vcodec : Option String := none
  acodec : Option String := none
  url : Option String := none
  filesize : Option Int := none
  filesize_approx : Option Int := none
  protocol : String := ""
  format_note : String := ""
  deriving Repr, DecidableEq

/-- One entry of an item's `display_resources` list (Instagram images). -/
structure DisplayResource where
  config_width : Option Int := none
  config_height : Option Int := none
  src : Option String := none
  deriving Repr, DecidableEq

/-- One entry of an item's `thumbnails` list. -/
structure RawThumb where
  id : Option String := none
  ext : Option String := none
  width : Option Int := none
  height : Option Int := none
  url : Option String := none
  deriving Repr, DecidableEq

/-- One extracted item (a playlist entry, or the whole `info` when the post
is a single item). -/
structure RawItem where
  id : Option String := none
  title : Option String := none
  thumbnail : Option String := none
  duration : Option Int := none
  uploader : Option String := none
  channel : Option String := none
  formats : List RawFormat := []
  ext : Option String := none
  url : Option String := none
  width : Option Int := none
  height : Option Int := none
  display_resources : Option (List DisplayResource) := none
  thumbnails : Option (List RawThumb) := none
  deriving Repr, DecidableEq

/-- The top-level `info` dict: the fields `analyze_platform` reads at the
playlist level, plus itself viewed as a single item. -/
structure RawInfo where
  _type : Option String := none
  entries : Option (List RawItem) := none
  item : RawItem := {}
  deriving Repr, DecidableEq

/-- `info.get('entries', [info]) if info.get('_type') == 'playlist' else
[info]` (base.py line 442). -/
def infoEntries (info : RawInfo) : List RawItem :=
  if info._type = some "playlist" then info.entries.getD [info.item]
  else [info.item]

/-! ## Canonical Format records (the normalized dicts the builders emit) -/

/-- One normalized format dict.  `type` distinguishes video/audio/image;
`source` is the provenance tag some resolvers attach. -/
structure Fmt where
  format_id : Option String := none
  ext : String := ""
  quality : String := ""
  height : Option Int := none
  width : Option Int := none
  fps : Option Int := none
  tbr : Option Int := none
  url : Option String := none
  has_direct_url : Bool := false
  is_progressive : Bool := false
  vcodec : Option String := none
  acodec : Option String := none
  type : String := ""
  source : Option String := none
  deriving Repr, DecidableEq

/-- One normalized item of a resolution result. -/
structure Item where
  id : Option String := none
  title : String := ""
  thumbnail : Option String := none
  duration : Option Int := none
  uploader : String := ""
  formats : List Fmt := []
  media_type : String := ""
  deriving Repr, DecidableEq

/-- The dict `analyze_platform` (and the per-source resolvers) return. -/
structure AnalyzeResult where
  title : String := ""
  thumbnail : Option String := none
  duration : Option Int := none
  uploader : String := ""
  media_type : String := ""
  mp4 : List Fmt := []
  mp3 : List Fmt := []
  jpg : List Fmt := []
  images : List Fmt := []
  items : List Item := []
  count : Nat := 0
  instant_available : Bool := false
  deriving Repr, DecidableEq

/-- Error classes the resolution code raises: `ValueError` (caller fault)
vs `ConnectionError` (upstream fault). -/
inductive AErr where
  | valueError (msg : String)
  | connectionError (msg : String)
  deriving Repr, DecidableEq

/-- Python `str.capitalize()`: first character upper-cased, rest
lower-cased (ASCII model). -/
def pyCapitalize (s : String) : String :=
  match s.data with
  | [] => ""
  | c :: cs => ⟨upperC c :: lowerL cs⟩

/-! ## FormatCatalog builder, generic path (`base.py`, `analyze_platform`) -/

/-- The video filter of the dedup loop (base.py line 472): entries with no
positive dimension, or a non-mp4 container, are discarded. -/
def passesVideoFilter (f : RawFormat) : Bool :=
  !((orZeroI f.height ≤ 0 && orZeroI f.width ≤ 0) ||
    lowerS (pyOrS f.ext "mp4") ≠ "mp4")

/-- The dedup key `(height, fps, ext, tbr)` (base.py line 477). -/
def videoKeyOf (f : RawFormat) : Int × Int × String × Int :=
  (orZeroI f.height, orZeroI f.fps, lowerS (pyOrS f.ext "mp4"), orZeroI f.tbr)

/-- The normalized video dict built at base.py lines 497-514. -/
def baseVideoFmt (f : RawFormat) : Fmt :=
  let height := orZeroI f.height
  let ext := lowerS (pyOrS f.ext "mp4")
  { format_id := f.format_id,
    ext := upperS ext,
    quality := if height ≠ 0 then toString height ++ "p" else "Video",
    height := some height,
    fps := some (orZeroI f.fps),
    tbr := some (orZeroI f.tbr),
    url := f.url,
    has_direct_url := truthyS f.url,
    is_progressive := decide (f.vcodec ≠ some "none") && decide (f.acodec ≠ some "none"),
    vcodec := f.vcodec,
    acodec := f.acodec,
    type := "video" }

/-- The video dedup loop of base.py lines 467-514: `seen` is the set of
dedup keys already emitted; the first entry per key wins unconditionally. -/
def buildVideoFormats : List RawFormat → List (Int × Int × String × Int) → List Fmt
  | [], _ => []
  | f :: rest, seen =>
    if passesVideoFilter f then
      if videoKeyOf f ∈ seen then buildVideoFormats rest seen
      else baseVideoFmt f :: buildVideoFormats rest (videoKeyOf f :: seen)
    else buildVideoFormats rest seen

/-- Python `f"{o}p"` where `o` may be `None`. -/
def qualityOfOpt (o : Option Int) : String :=
  (match o with | none => "None" | some n => toString n) ++ "p"

/-- `_build_image_formats` (base.py lines 288-327). -/
def buildImageFormats (item : RawItem) : List Fmt :=
  match item.display_resources with
  | some drs =>
    (drs.enum).map (fun p =>
      { format_id := some ("img" ++ toString p.1),
        ext := "jpg",
        width := p.2.config_width,
        height := p.2.config_height,
        url := p.2.src,
        quality := qualityOfOpt p.2.config_height,
        type := "image" })
  | none =>
    match item.thumbnails with
    | some thumbs =>
      thumbs.map (fun t =>
        { format_id := some (t.id.getD "img"),
          ext := t.ext.getD "jpg",
          width := t.width,
          height := t.height,
          url := t.url,
          quality := qualityOfOpt t.height,
          type := "image" })
    | none =>
      match item.url with
      | some u =>
        [{ format_id := some "img0",
           ext := item.ext.getD "jpg",
           width := item.width,
           height := item.height,
           url := some u,
           quality := qualityOfOpt item.height,
           type := "image" }]
      | none => []

/-- Media-type detection (base.py lines 447-460): the item is a video iff
some raw format has an mp4 extension and a positive dimension. -/
def hasVideoMp4 (fmts : List RawFormat) : Bool :=
  fmts.any (fun f =>
    lowerS (pyOrS f.ext "mp4") = "mp4" &&
    (orZeroI f.height > 0 || orZeroI f.width > 0))

/-- Normalization of a single item (base.py lines 445-553).  `thumbF`
abstracts `get_best_thumbnail`, whose network-validating internals no
claim touches. -/
def normalizeItem (thumbF : RawItem → Option String) (platform : String)
    (item : RawItem) : Item :=
  let is_video := hasVideoMp4 item.formats
  let video_formats := if is_video then buildVideoFormats item.formats [] else []
  let image_formats := if is_video then [] else buildImageFormats item
  { id := item.id,
    title := pyOrS item.title (pyOrS item.id (pyCapitalize platform ++ " Media")),
    thumbnail := thumbF item,
    duration := item.duration,
    uploader := pyOrS item.uploader (pyOrS item.channel "Unknown"),
    formats := video_formats ++ image_formats,
    media_type := if is_video then "video" else "image" }

/-- The `instant_available` computation of base.py lines 565-578: only the
platform named `facebook` is ever inspected, and the inspection requires a
video format with container `MP4` and `is_progressive` (a direct URL is
not required). -/
def instantCheck (platform : String) (items : List Item) : Bool :=
  lowerS platform = "facebook" &&
    items.any (fun it => it.formats.any (fun f =>
      f.type = "video" && upperS f.ext = "MP4" && f.is_progressive))

/-- The catalog-building tail of `analyze_platform` (base.py lines
442-593), from the extracted entry list to the returned result dict. -/
def analyzeBuild (thumbF : RawItem → Option String) (platform : String)
    (entries : List RawItem) : Except AErr AnalyzeResult :=
  match entries.map (normalizeItem thumbF platform) with
  | [] => .error (.valueError "No media found")
  | first :: rest =>
    .ok { title := first.title,
          thumbnail := first.thumbnail,
          duration := first.duration,
          uploader := first.uploader,
          media_type := first.media_type,
          mp4 := first.formats.filter (fun f => f.type = "video"),
          mp3 := first.formats.filter (fun f => f.type = "audio"),
          jpg := first.formats.filter (fun f => f.type = "image"),
          images := (first :: rest).flatMap (fun it =>
            it.formats.filter (fun f => f.type = "image")),
          items := first :: rest,
          count := (first :: rest).length,
          instant_available := instantCheck platform (first :: rest) }

/-! ## FormatCatalog builder, YouTube path (`youtube.py`, `analyze`) -/

/-- Does `pat` occur as a prefix of `l`? -/
def startsWithL : List Char → List Char → Bool
  | [], _ => true
  | _ :: _, [] => false
  | p :: ps, c :: cs => p = c && startsWithL ps cs

/-- Does `l` contain `pat` as a contiguous substring? -/
def hasSubL (pat : List Char) : List Char → Bool
  | [] => startsWithL pat []
  | c :: cs => startsWithL pat (c :: cs) || hasSubL pat cs

/-- Case-insensitive substring test (model of `re.search` for the literal
alternations `m3u8|hls` and `premium|storyboard`, and of Python's
`pat in s` on lowered strings). -/
def containsSub (s pat : String) : Bool := hasSubL pat.data (lowerS s).data

/-- The skip conditions of youtube.py lines 139-146: HLS protocols,
premium/storyboard notes, and non-positive heights. -/
def ytPasses (f : RawFormat) : Bool :=
  !(containsSub f.protocol "m3u8" || containsSub f.protocol "hls" ||
    containsSub f.format_note "premium" || containsSub f.format_note "storyboard") &&
  orZeroI f.height > 0

/-- `has_video`/`has_audio` truthiness of youtube.py lines 152-154
(`f.get('vcodec') and f.get('vcodec') != 'none'`). -/
def ytHasVideo (f : RawFormat) : Bool :=
  match f.vcodec with
  | some s => s ≠ "" && s ≠ "none"
  | none => false

def ytHasAudio (f : RawFormat) : Bool :=
  match f.acodec with
  | some s => s ≠ "" && s ≠ "none"
  | none => false

/-- The `new_entry` dict of youtube.py lines 166-181 (display-only size
fields omitted; no claim mentions them). -/
def ytEntryOf (f : RawFormat) : Fmt :=
  let height := orZeroI f.height
  let ext := pyOrS f.ext "mp4"
  let progressive := ytHasVideo f && ytHasAudio f
  let has_direct := truthyS f.url
  { format_id := f.format_id,
    ext := ext,
    quality := if f.format_note = "" then toString height ++ "p" else f.format_note,
    height := some height,
    fps := some (orZeroI f.fps),
    vcodec := f.vcodec,
    acodec := f.acodec,
    tbr := f.tbr,
    is_progressive := progressive,
    has_direct_url := has_direct,
    url := if progressive && has_direct then f.url else none,
    type := "video" }

/-- The dict key `f"{height}_{fps}_{ext}"` of youtube.py line 151. -/
def ytKeyOf (f : RawFormat) : String :=
  toString (orZeroI f.height) ++ "_" ++ toString (orZeroI f.fps) ++ "_" ++ pyOrS f.ext "mp4"

/-- The same key recomputed from an emitted entry (used to state map
invariants). -/
def fmtKey (e : Fmt) : String :=
  toString (orZeroI e.height) ++ "_" ++ toString (orZeroI e.fps) ++ "_" ++ e.ext

/-- `1 if b else 0`. -/
def b2i (b : Bool) : Int := if b then 1 else 0

/-- The preference tuple `pref_tuple` of youtube.py lines 127-135, read off
an emitted entry (the code computes it from the same values the entry
stores): `(is_progressive, ext == 'mp4', has_direct_url, height, fps,
tbr or 0)`. -/
def specTuple (e : Fmt) : List Int :=
  [b2i e.is_progressive, b2i (lowerS e.ext = "mp4"), b2i e.has_direct_url,
   orZeroI e.height, orZeroI e.fps, orZeroI e.tbr]

/-- Python's lexicographic `<` on equal-shaped tuples, as a boolean on
integer lists. -/
def lexLt : List Int → List Int → Bool
  | _, [] => false
  | [], _ :: _ => true
  | a :: as, b :: bs => if a < b then true else if a = b then lexLt as bs else false

/-- One insertion into `formats_map` (youtube.py lines 183-190): an
existing entry under the same key is replaced — in place, as Python dicts
keep insertion position — only when the incoming preference tuple is
strictly greater; otherwise the incoming entry is dropped.  A fresh key is
appended. -/
def ytInsert (f : RawFormat) : List (String × Fmt) → List (String × Fmt)
  | [] => [(ytKeyOf f, ytEntryOf f)]
  | (k, e) :: rest =>
    if k = ytKeyOf f then
      if lexLt (specTuple e) (specTuple (ytEntryOf f)) then (k, ytEntryOf f) :: rest
      else (k, e) :: rest
    else (k, e) :: ytInsert f rest

/-- The whole dedup loop over the combined format list. -/
def ytBuildMap (fs : List RawFormat) : List (String × Fmt) :=
  fs.foldl (fun m f => if ytPasses f then ytInsert f m else m) []

/-- Stable descending insertion by preference tuple: an element keeps
scanning past strictly greater entries and lands before the first entry
not strictly greater than it.  This is exactly the result of Python's
stable `list.sort(key=pref_tuple, reverse=True)` (youtube.py lines
192-201). -/
def sortIns (x : Fmt) : List Fmt → List Fmt
  | [] => [x]
  | y :: ys => if lexLt (specTuple x) (specTuple y) then y :: sortIns x ys else x :: y :: ys

def sortDesc (l : List Fmt) : List Fmt := l.foldr sortIns []

/-- The final video format list of the YouTube analyzer (youtube.py lines
124-201): dedup map values in insertion order, then the stable descending
sort. -/
def ytVideoFormats (fs : List RawFormat) : List Fmt :=
  sortDesc ((ytBuildMap fs).map Prod.snd)

/-- The descending-sorted relation: the earlier element is not strictly
below the later one. -/
def tupGe (a b : Fmt) : Prop := lexLt (specTuple a) (specTuple b) = false

/-- Well-formedness of `formats_map`: keys are distinct and each entry is
stored under the key recomputed from its own fields. -/
def MapWf (m : List (String × Fmt)) : Prop :=
  (m.map Prod.fst).Nodup ∧ ∀ p ∈ m, p.1 = fmtKey p.2

/-- The dedup key of the generic builder recomputed from an emitted
entry's fields. -/
def baseKey (e : Fmt) : Int × Int × String × Int :=
  (orZeroI e.height, orZeroI e.fps, lowerS e.ext, orZeroI e.tbr)

/-- Componentwise `≥` on equal-shaped integer tuples (the claim's "every
component of A's tuple is greater than or equal to B's"). -/
def compGeB : List Int → List Int → Bool
  | [], [] => true
  | a :: as, b :: bs => a ≥ b && compGeB as bs
  | _, _ => false

/-- The ranking property claim C4 asserts of an output list: a format whose
preference tuple dominates another's componentwise never appears after it. -/
def rankedByTuple (l : List Fmt) : Prop :=
  ∀ (i j : Nat) (hi : i < l.length) (hj : j < l.length),
    compGeB (specTuple (l.get ⟨i, hi⟩)) (specTuple (l.get ⟨j, hj⟩)) = true → i ≤ j

/-! ### Concrete inputs used by counterexamples and witnesses -/

/-- A progressive, directly fetchable 720p MP4 raw descriptor. -/
def rfProg720 : RawFormat :=
  { ext := some "mp4", height := some 720, width := some 1280, fps := some 30,
    tbr := some 1000, vcodec := some "avc1", acodec := some "mp4a",
    url := some "https://cdn.example/v720.mp4" }

/-- An item whose only format is `rfProg720`. -/
def itemProg720 : RawItem := { formats := [rfProg720] }

/-- A video-only (no audio codec) descriptor sharing `rfC3Prog`'s dedup key. -/
def rfC3VideoOnly : RawFormat :=
  { ext := some "mp4", height := some 720, width := some 1280, fps := some 30,
    tbr := some 1000, vcodec := some "avc1", acodec := some "none",
    url := some "https://cdn.example/a.mp4" }

/-- A progressive descriptor with the same `(height, fps, ext, tbr)` dedup
key as `rfC3VideoOnly` but a strictly greater preference tuple. -/
def rfC3Prog : RawFormat :=
  { ext := some "mp4", height := some 720, width := some 1280, fps := some 30,
    tbr := some 1000, vcodec := some "avc1", acodec := some "mp4a",
    url := some "https://cdn.example/b.mp4" }

/-- A low-preference 360p descriptor (no audio, no direct URL). -/
def rfLow360 : RawFormat :=
  { ext := some "mp4", height := some 360, width := some 640, fps := some 30,
    tbr := some 500, vcodec := some "avc1", acodec := some "none", url := none }

/-- An item listing the low-preference descriptor before the dominating
one, in extractor order. -/
def itemLowThenHigh : RawItem := { formats := [rfLow360, rfProg720] }

/-- The video list the generic builder emits for `itemLowThenHigh`. -/
def mp4LowThenHigh : List Fmt :=
  match analyzeBuild (fun _ => none) "instagram" [itemLowThenHigh] with
  | .ok r => r.mp4
  | .error _ => []

/-! ## Fulfillment planners

`prepare_download_options` (base.py lines 595-731) and the YouTube-specific
`prepare_download` (youtube.py lines 257-360).  A returned `ydl_opts` dict
is modelled by the plan constructor that captures its decision: direct-URL
passthrough vs. the audio/merge pipelines, with the fields the claims
inspect (the mp3 postprocessor bitrate, and whether the out-of-range clamp
was logged). -/

/-- ASCII decimal digit test. -/
def isDigitC (c : Char) : Bool := 48 ≤ c.toNat && c.toNat ≤ 57

/-- ASCII whitespace as stripped by Python `int()`. -/
def isSpaceC (c : Char) : Bool :=
  c = ' ' || c = '\t' || c = '\n' || c = '\x0d' || c = '\x0b' || c = '\x0c'

/-- Value of a digit string. -/
def digitsVal (l : List Char) : Int :=
  l.foldl (fun acc c => acc * 10 + ((c.toNat : Int) - 48)) 0

/-- Strip leading and trailing whitespace. -/
def stripWs (l : List Char) : List Char :=
  ((l.dropWhile isSpaceC).reverse.dropWhile isSpaceC).reverse

/-- Python `int(s)` on a character list: strips whitespace, accepts an
optional sign followed by one or more digits; `none` models the raised
`ValueError` the callers catch. -/
def pyIntL (l : List Char) : Option Int :=
  match stripWs l with
  | [] => none
  | '+' :: rest =>
    if rest ≠ [] ∧ rest.all isDigitC then some (digitsVal rest) else none
  | '-' :: rest =>
    if rest ≠ [] ∧ rest.all isDigitC then some (-(digitsVal rest)) else none
  | l' => if l'.all isDigitC then some (digitsVal l') else none

/-- The regex `(?i)^mp3[_-]?(\d{2,3})$` of base.py line 653, applied to the
already-lowered format id: returns the captured bitrate. -/
def mp3BitrateMatch (fid : String) : Option Int :=
  match fid.data with
  | 'm' :: 'p' :: '3' :: rest =>
    let ds := match rest with
      | '_' :: ds => ds
      | '-' :: ds => ds
      | ds => ds
    if 2 ≤ ds.length ∧ ds.length ≤ 3 ∧ ds.all isDigitC = true then
      some (digitsVal ds)
    else none
  | _ => none

/-- Python `str.startswith`. -/
def startsWithS (s pre : String) : Bool := startsWithL pre.data s.data

/-- `'+' in format_id`. -/
def hasPlus (s : String) : Bool := s.data.contains '+'

/-- Python `str.split(sep)` on a character list. -/
def splitOnC (sep : Char) : List Char → List (List Char)
  | [] => [[]]
  | c :: cs =>
    if c = sep then [] :: splitOnC sep cs
    else
      match splitOnC sep cs with
      | r :: rs => (c :: r) :: rs
      | [] => [[c]]

/-- The image-format lookup of base.py lines 612-619: per item, the first
format with the requested id is inspected; a truthy URL answers, a falsy
one moves on to the next item. -/
def findImageUrl (fid : String) : List Item → Option String
  | [] => none
  | it :: rest =>
    match it.formats.find? (fun f => pyStr f.format_id == fid) with
    | some f => if truthyS f.url then f.url else findImageUrl fid rest
    | none => findImageUrl fid rest

/-- The top-level instant-audio scan of base.py lines 631-634. -/
def findInstantAudioTop (fid : String) (mp3s : List Fmt) : Option String :=
  (mp3s.find? (fun a =>
    pyStr a.format_id == fid && a.has_direct_url && truthyS a.url)).bind (fun a => a.url)

/-- The per-item instant-audio scan of base.py lines 636-639. -/
def findInstantAudioItems (fid : String) (items : List Item) : Option String :=
  ((items.flatMap (fun it => it.formats)).find? (fun f =>
    pyStr f.format_id == fid && f.type == "audio" && truthyS f.url)).bind (fun f => f.url)

/-- The decision a `prepare_download_options` call returns. -/
inductive GPlan where
  | directUrl (u : String)
  | audioBest
  | mp3Extract (bitrate : Int) (clampWarned : Bool)
  | m4aExtract
  | videoMerge (selector : String)
  deriving Repr, DecidableEq

/-- `prepare_download_options` (base.py lines 595-731).  `analyzed` is the
resolved catalog (the caller's `info`, or the re-analysis the code performs
when it is absent); `fbHelper` abstracts `get_facebook_mp4` (`none` for an
exception or a `None` return).  `mp3Extract`'s second field records whether
the out-of-range clamp warning was logged. -/
def prepareDownloadOptions (platform fid : String) (analyzed : AnalyzeResult)
    (fbHelper : Option String) : Except AErr GPlan :=
  if startsWithS fid "img" then
    match findImageUrl fid analyzed.items with
    | some u => .ok (.directUrl u)
    | none => .error (.valueError "Image format not found")
  else
    let instant :=
      if fid ≠ "" ∧ hasPlus fid = false then
        match findInstantAudioTop fid analyzed.mp3 with
        | some u => some u
        | none => findInstantAudioItems fid analyzed.items
      else none
    match instant with
    | some u => .ok (.directUrl u)
    | none =>
      let fidL := lowerS fid
      if fidL = "audio" ∨ fidL = "bestaudio" ∨ fidL = "audio_best" then
        .ok .audioBest
      else if fidL = "mp3" ∨ fidL = "audio_mp3" ∨ (mp3BitrateMatch fidL).isSome then
        let bitrate := (mp3BitrateMatch fidL).getD 192
        let clamped := max 32 (min 320 bitrate)
        .ok (.mp3Extract clamped (clamped ≠ bitrate))
      else if fidL = "m4a" ∨ fidL = "audio_m4a" then
        .ok .m4aExtract
      else
        let fbres :=
          if lowerS platform = "facebook" then
            match fbHelper with
            | some u => if u ≠ "" then some u else none
            | none => none
          else none
        match fbres with
        | some u => .ok (.directUrl u)
        | none =>
          let inst :=
            if fid ≠ "" ∧ fid ≠ "best" ∧ hasPlus fid = false then
              match analyzed.mp4.find? (fun f => pyStr f.format_id == fid) with
              | some sel =>
                if sel.is_progressive && sel.has_direct_url && truthyS sel.url then
                  sel.url
                else none
              | none => none
            else none
          match inst with
          | some u => .ok (.directUrl u)
          | none =>
            .ok (.videoMerge
              (if fid ≠ "" ∧ hasPlus fid = false then fid ++ "+bestaudio/" ++ fid
               else fid))

/-- The `ydl_opts` the YouTube `prepare_download` builds, restricted to the
decision-bearing fields. -/
structure YtPlan where
  format : String
  mp3Quality : Option Int
  merge_output : Option String
  deriving Repr, DecidableEq

/-- The `best` fallback chain of youtube.py lines 268-275. -/
def ytBestSelector : String :=
  "best[ext=mp4][vcodec!=none][acodec!=none]/" ++
  "best[vcodec!=none][acodec!=none]/" ++
  "bestvideo[ext=mp4]+bestaudio[ext=m4a]/" ++
  "bestvideo[ext=mp4]+bestaudio/" ++
  "bestvideo+bestaudio/" ++
  "best"

/-- `prepare_download` (youtube.py lines 257-360).  `probe` is the quick
`extract_info` used to classify a bare format id (`.error` models a raised
exception).  For `mp3_<n>` ids the format becomes `bestaudio` with an
`FFmpegExtractAudio` postprocessor whose `preferredquality` is the parsed
bitrate — taken as-is, with `192` only when parsing fails. -/
def ytPrepareDownload (fid : String) (probe : Except Unit (List RawFormat)) : YtPlan :=
  let format_selector :=
    if fid = "best" then ytBestSelector
    else if startsWithS fid "mp3_" then fid
    else if hasPlus fid then fid
    else
      match probe with
      | .ok fmts =>
        match fmts.find? (fun f => pyStr f.format_id == fid) with
        | some sel =>
          if ytHasVideo sel && !(ytHasAudio sel) then
            fid ++ "+bestaudio[ext=m4a]/" ++ fid ++ "+bestaudio/" ++ fid
          else fid
        | none => fid
      | .error _ => fid
  if startsWithS fid "mp3_" then
    let bitrate :=
      match (splitOnC '_' fid.data).get? 1 with
      | some part => (pyIntL part).getD 192
      | none => 192
    { format := "bestaudio", mp3Quality := some bitrate, merge_output := none }
  else
    { format := format_selector, mp3Quality := none, merge_output := some "mkv" }

/-! ## URL parsing (`urllib.parse`, as used by the per-source normalizers)

URLs are modelled as character lists.  `urlparseLite` models CPython's
`urlparse` on the `scheme://netloc/path?query#fragment` shapes the
normalizers feed it: scheme split at the first `:` when the prefix is made
of scheme characters, netloc after `//` up to the first of `/?#`, then the
fragment split at the first `#` and the query at the first `?` (the legacy
`;params` splitting is not modelled; no code in the repository uses
`.params`). -/

def isAlphaC (c : Char) : Bool :=
  (65 ≤ c.toNat && c.toNat ≤ 90) || (97 ≤ c.toNat && c.toNat ≤ 122)

def isSchemeChar (c : Char) : Bool :=
  isAlphaC c || isDigitC c || c = '+' || c = '-' || c = '.'

/-- Split a list at the first occurrence of `sep`, which is dropped. -/
def breakAt (sep : Char) : List Char → Option (List Char × List Char)
  | [] => none
  | c :: cs =>
    if c = sep then some ([], cs)
    else (breakAt sep cs).map (fun p => (c :: p.1, p.2))

structure UrlParts where
  scheme : List Char := []
  netloc : List Char := []
  path : List Char := []
  query : List Char := []
  fragment : List Char := []
  deriving Repr, DecidableEq

/-- Is the character one of the netloc delimiters `/?#`? -/
def isNetlocEnd (c : Char) : Bool := c = '/' || c = '?' || c = '#'

/-- Scheme stage: split at the first `:` when the prefix is made of scheme
characters; the scheme is lowered. -/
def urlSplitScheme (l : List Char) : List Char × List Char :=
  match breakAt ':' l with
  | some (pre, post) =>
    if pre ≠ [] ∧ pre.all isSchemeChar = true then (lowerL pre, post) else ([], l)
  | none => ([], l)

/-- Netloc stage: after `//`, the netloc runs to the first of `/?#`. -/
def urlSplitNetloc (rest : List Char) : List Char × List Char :=
  if startsWithL ['/', '/'] rest then
    ((rest.drop 2).takeWhile (fun c => !(isNetlocEnd c)),
     (rest.drop 2).dropWhile (fun c => !(isNetlocEnd c)))
  else ([], rest)

/-- Fragment stage: split at the first `#`. -/
def urlSplitFrag (r2 : List Char) : List Char × List Char :=
  match breakAt '#' r2 with
  | some ab => ab
  | none => (r2, [])

/-- Query stage: split at the first `?`. -/
def urlSplitQuery (bf : List Char) : List Char × List Char :=
  match breakAt '?' bf with
  | some ab => ab
  | none => (bf, [])

def urlparseLite (l : List Char) : UrlParts :=
  let sp := urlSplitScheme l
  let np := urlSplitNetloc sp.2
  let fr := urlSplitFrag np.2
  let pq := urlSplitQuery fr.1
  { scheme := sp.1, netloc := np.1, path := pq.1, query := pq.2, fragment := fr.2 }

/-- CPython `urlunsplit` for the component shapes the normalizers build
(`params` and `fragment` always empty at the call sites). -/
def urlunparseLite (scheme netloc path query : List Char) : List Char :=
  let url1 :=
    if netloc ≠ [] ∨ (path ≠ [] ∧ startsWithL ['/', '/'] path) then
      '/' :: '/' :: (netloc ++
        (if path ≠ [] ∧ ¬ startsWithL ['/'] path = true then '/' :: path else path))
    else path
  let url2 := if scheme ≠ [] then scheme ++ ':' :: url1 else url1
  if query ≠ [] then url2 ++ '?' :: query else url2

/-- `str.endswith`. -/
def endsWithL (l pat : List Char) : Bool := startsWithL pat.reverse l.reverse

/-- `str.rstrip('/')`. -/
def rstripSlash (l : List Char) : List Char :=
  (l.reverse.dropWhile (fun c => c = '/')).reverse

/-! ## Instagram URL normalization
(`instagram.py`, `_normalize_instagram_url`) -/

/-- The host test of instagram.py lines 40-46: `instagr.am` exactly, or any
host whose lowered form ends in `instagram.com`. -/
def igIsHost (netloc : List Char) : Bool :=
  lowerL netloc = "instagr.am".data || endsWithL (lowerL netloc) "instagram.com".data

/-- `re.search(r"^/(?:p|reel|reels|tv|stories)/", path, re.I)`. -/
def igPostsPath (p : List Char) : Bool :=
  startsWithL "/p/".data (lowerL p) || startsWithL "/reel/".data (lowerL p) ||
  startsWithL "/reels/".data (lowerL p) || startsWithL "/tv/".data (lowerL p) ||
  startsWithL "/stories/".data (lowerL p)

/-- Characters allowed in an Instagram username. -/
def isProfileChar (c : Char) : Bool :=
  isAlphaC c || isDigitC c || c = '.' || c = '_'

/-- `re.match(r"^/[A-Za-z0-9._]{1,30}$", path)`. -/
def igProfilePath : List Char → Bool
  | [] => false
  | c :: rest => c = '/' && rest ≠ [] && rest.length ≤ 30 && rest.all isProfileChar

/-- `re.match(r"^/explore/tags/[^/]+$", path, re.I)`. -/
def igTagsPath (p : List Char) : Bool :=
  startsWithL "/explore/tags/".data (lowerL p) &&
  (p.drop 14 ≠ [] && !((p.drop 14).contains '/'))

/-- The optional `(?:/[^/]+)?$` slug after the location digits. -/
def igLocTail : List Char → Bool
  | [] => true
  | c :: seg => c = '/' && seg ≠ [] && !(seg.contains '/')

/-- `re.match(r"^/explore/locations/\d+(?:/[^/]+)?$", path, re.I)`. -/
def igLocPath (p : List Char) : Bool :=
  startsWithL "/explore/locations/".data (lowerL p) &&
  (let rest := p.drop 19
   let ds := rest.takeWhile isDigitC
   ds ≠ [] && igLocTail (rest.drop ds.length))

/-- `_normalize_instagram_url` (instagram.py lines 25-72). -/
def normalizeInstagramUrl (u : List Char) : List Char :=
  let p := urlparseLite u
  if igIsHost p.netloc then
    let netloc := "www.instagram.com".data
    let path := rstripSlash p.path
    if igPostsPath path then urlunparseLite "https".data netloc path []
    else if igProfilePath path then urlunparseLite "https".data netloc (lowerL path) []
    else if igTagsPath path then urlunparseLite "https".data netloc (lowerL path) []
    else if igLocPath path then urlunparseLite "https".data netloc (lowerL path) []
    else urlunparseLite "https".data netloc path []
  else u

/-! ## Network-effect model of the per-source resolvers
(`base.py` `analyze_platform`, `reddit.py` `analyze`, `facebook.py`
`analyze`)

Each outbound request the code can make is recorded as a `NetEvent`; the
effectful dependencies (yt-dlp extraction, HTTP clients, the Facebook
scraping helper) are passed in as environment records whose `.error` /
`none` results model the corresponding Python exceptions. -/

/-- One outbound network request: a yt-dlp extractor invocation (primary
opts or the `extract_flat` retry), an HTTP page fetch, the
`facebook_helper.get_facebook_mp4` scrape, or the quick yt-dlp metadata
probe of the Facebook augment path. -/
inductive NetEvent where
  | ydl (url : List Char)
  | ydlFlat (url : List Char)
  | httpGet (url : List Char)
  | helper (url : List Char)
  | probe (url : List Char)
  deriving Repr, DecidableEq

/-- The two yt-dlp extraction attempts of `analyze_platform` (base.py
lines 427-439): `.error` models the extractor raising, `.ok none` models a
falsy `info`. -/
structure ExtractEnv where
  extract : List Char → Except AErr (Option RawInfo)
  extractFlat : List Char → Except AErr (Option RawInfo)

/-- The extraction part of `analyze_platform` (base.py lines 417-443): the
primary attempt, the `extract_flat` retry that re-raises the primary error
on a second failure, the falsy-`info` ConnectionError, and the catalog
building of `analyzeBuild`. -/
def analyzeExtract (env : ExtractEnv) (thumbF : RawItem → Option String)
    (platform : String) (url : List Char) :
    Except AErr AnalyzeResult × List NetEvent :=
  match env.extract url with
  | .ok info =>
    (match info with
     | none => .error (.connectionError
         ("Failed to analyze " ++ pyCapitalize platform ++ " URL"))
     | some i => analyzeBuild thumbF platform (infoEntries i),
     [NetEvent.ydl url])
  | .error e =>
    match env.extractFlat url with
    | .ok info =>
      (match info with
       | none => .error (.connectionError
           ("Failed to analyze " ++ pyCapitalize platform ++ " URL"))
       | some i => analyzeBuild thumbF platform (infoEntries i),
       [NetEvent.ydl url, NetEvent.ydlFlat url])
    | .error _ => (.error e, [NetEvent.ydl url, NetEvent.ydlFlat url])

/-- `analyze_platform` (base.py lines 410-593) with its network trace made
explicit.  The URL-pattern guard (lines 412-415) runs before any extractor
is constructed, so a pattern failure raises `ValueError` with an empty
trace; an empty pattern list skips validation. -/
def analyzePlatformT (env : ExtractEnv) (thumbF : RawItem → Option String)
    (platform : String) (patterns : List (List Char → Bool)) (url : List Char) :
    Except AErr AnalyzeResult × List NetEvent :=
  match patterns with
  | [] => analyzeExtract env thumbF platform url
  | p :: ps =>
    if (p :: ps).all (fun q => !(q url)) then
      (.error (.valueError ("Invalid " ++ pyCapitalize platform ++ " URL")), [])
    else analyzeExtract env thumbF platform url

/-! ## Reddit resolver (`reddit.py`) -/

/-- `re.search`: does the matcher fire at some position of the input? -/
def searchL (m : List Char → Bool) (l : List Char) : Bool := l.tails.any m

/-- Consume `https?://` at the head (inputs are pre-lowered for the `re.I`
patterns). -/
def schemeAt (l : List Char) : Option (List Char) :=
  if startsWithL "https://".data l then some (l.drop 8)
  else if startsWithL "http://".data l then some (l.drop 7)
  else none

/-- `\w`. -/
def isWordC (c : Char) : Bool := isAlphaC c || isDigitC c || c = '_'

/-- `[a-z0-9]` (the inputs are pre-lowered, absorbing `re.I`). -/
def isLowerAlnum (c : Char) : Bool := (97 ≤ c.toNat && c.toNat ≤ 122) || isDigitC c

/-- The optional subdomain group `(www\.|old\.|new\.|np\.)?`: the
alternatives are prefix-disjoint from `reddit.com`, so greedy consumption
is exact. -/
def redditSub (l : List Char) : List Char :=
  if startsWithL "www.".data l then l.drop 4
  else if startsWithL "old.".data l then l.drop 4
  else if startsWithL "new.".data l then l.drop 4
  else if startsWithL "np.".data l then l.drop 3
  else l

/-- Matcher (anchored at the current position) for reddit.py pattern 1,
`https?://(www\.|old\.|new\.|np\.)?reddit\.com/r/[^/]+/comments/[a-z0-9]+...`;
for a `search`, the trailing optional groups never constrain a match. -/
def redditPat1At (l : List Char) : Bool :=
  match schemeAt l with
  | none => false
  | some r =>
    let r2 := redditSub r
    if startsWithL "reddit.com/r/".data r2 then
      let r3 := r2.drop 13
      let seg := r3.takeWhile (fun c => !(c = '/'))
      !(seg = []) &&
        (let r4 := r3.drop seg.length
         startsWithL "/comments/".data r4 &&
           (match r4.drop 10 with
            | c :: _ => isLowerAlnum c
            | [] => false))
    else false

/-- Matcher for reddit.py pattern 2, `https?://redd\.it/\w+/?`. -/
def redditPat2At (l : List Char) : Bool :=
  match schemeAt l with
  | none => false
  | some r =>
    startsWithL "redd.it/".data r &&
      (match r.drop 8 with
       | c :: _ => isWordC c
       | [] => false)

/-- Matcher for reddit.py pattern 3, `https?://v\.redd\.it/\w+`. -/
def redditPat3At (l : List Char) : Bool :=
  match schemeAt l with
  | none => false
  | some r =>
    startsWithL "v.redd.it/".data r &&
      (match r.drop 10 with
       | c :: _ => isWordC c
       | [] => false)

/-- Matcher for reddit.py pattern 4, `https?://i\.redd\.it/[^\s]+`. -/
def redditPat4At (l : List Char) : Bool :=
  match schemeAt l with
  | none => false
  | some r =>
    startsWithL "i.redd.it/".data r &&
      (match r.drop 10 with
       | c :: _ => !(isSpaceC c)
       | [] => false)

/-- `URL_PATTERNS` of reddit.py lines 7-15 (all compiled with `re.I`,
modelled by lowering the input). -/
def redditPatterns : List (List Char → Bool) :=
  [fun u => searchL redditPat1At (lowerL u),
   fun u => searchL redditPat2At (lowerL u),
   fun u => searchL redditPat3At (lowerL u),
   fun u => searchL redditPat4At (lowerL u)]

/-- `_normalize_reddit_url` (reddit.py lines 18-42). -/
def normalizeRedditUrl (u : List Char) : List Char :=
  let p := urlparseLite u
  if hasSubL "redd.it".data p.netloc then u
  else if hasSubL "reddit.com".data p.netloc then
    let netloc := lowerL p.netloc
    let netloc2 :=
      if startsWithL "old.".data netloc || startsWithL "new.".data netloc ||
         startsWithL "np.".data netloc then "www.reddit.com".data
      else if !(startsWithL "www.".data netloc) then "www.reddit.com".data
      else netloc
    urlunparseLite p.scheme netloc2 (rstripSlash p.path) []
  else u

/-- The OpenGraph metadata the fallback scrapes from the fetched page, one
field per `_meta` property probed (reddit.py lines 84-94).  `_meta` either
fails or yields the nonempty `content` attribute, so each field is an
`Option` and the Python `or`-chains over them are truthiness `or`s. -/
structure OgPage where
  ogVideoSecureUrl : Option String := none
  ogVideoUrl : Option String := none
  ogVideo : Option String := none
  ogImage : Option String := none
  twitterImage : Option String := none
  ogTitle : Option String := none
  deriving Repr, DecidableEq

/-- The two optional HTTP clients of the fallback (reddit.py lines 65-80):
`none` models the library missing (no request made), `some g` with
`g url = none` models the request raising, and a delivered response is a
status code and the page body (`none` body = empty text). -/
structure RedditEnv where
  httpxGet : Option (List Char → Option (Int × Option OgPage)) := none
  requestsGet : Option (List Char → Option (Int × Option OgPage)) := none

/-- One client attempt: a response with status `< 400` delivers its body,
anything else leaves `text` unset; invoking a present client is a network
event regardless of outcome. -/
def fetchOne (cl : Option (List Char → Option (Int × Option OgPage)))
    (url : List Char) : Option (Option OgPage) × List NetEvent :=
  match cl with
  | none => (none, [])
  | some g =>
    (match g url with
     | none => none
     | some r => if r.1 < 400 then some r.2 else none,
     [NetEvent.httpGet url])

/-- The page-fetch sequence of reddit.py lines 64-80: httpx first, the
requests retry only when `text` is still `None` (an empty body from httpx
does not retry). -/
def redditFetchText (renv : RedditEnv) (url : List Char) :
    Option (Option OgPage) × List NetEvent :=
  let r1 := fetchOne renv.httpxGet url
  match r1.1 with
  | some t => (some t, r1.2)
  | none =>
    let r2 := fetchOne renv.requestsGet url
    (r2.1, r1.2 ++ r2.2)

/-- Python `str(e)` on the exception classes modelled: the message. -/
def errMsg : AErr → String
  | .valueError m => m
  | .connectionError m => m

/-- Python `a or b` on two optional strings. -/
def pyOrOptS (a b : Option String) : Option String := if truthyS a then a else b

/-- Leftmost position where an anchored matcher yields a value
(`re.search` with a capture group). -/
def findFirst {α : Type} (f : List Char → Option α) : List Char → Option α
  | [] => f []
  | c :: cs =>
    match f (c :: cs) with
    | some a => some a
    | none => findFirst f cs

/-- Anchored matcher for `/comments/([a-z0-9]+)/` (reddit.py lines 116 and
150; case-sensitive, and the group must be followed by a slash). -/
def commentsIdAt (l : List Char) : Option (List Char) :=
  if startsWithL "/comments/".data l then
    let r := l.drop 10
    let ds := r.takeWhile isLowerAlnum
    if !(ds = []) &&
       (match r.drop ds.length with
        | c :: _ => c = '/'
        | [] => false) then some ds
    else none
  else none

/-- The item id of the fallback results:
`re.findall(r"/comments/([a-z0-9]+)/", normalized)[0]` when the pattern
occurs, else the given placeholder. -/
def redditId (normalized : List Char) (fallback : String) : String :=
  match findFirst commentsIdAt normalized with
  | some ds => ⟨ds⟩
  | none => fallback

/-- The direct-mp4 format dict of the Reddit OpenGraph video path
(reddit.py lines 97-114). -/
def ogVideoFmt (v : String) : Fmt :=
  { format_id := some "direct-mp4", ext := "MP4", quality := "Video",
    url := some v, has_direct_url := true, is_progressive := true,
    type := "video", source := some "opengraph" }

/-- The image format dict of the Reddit OpenGraph image path (reddit.py
lines 139-148). -/
def ogImageFmt (img : String) : Fmt :=
  { format_id := some "img0", ext := "jpg", url := some img,
    quality := "Image", type := "image" }

/-- The single-item result of the OpenGraph video path (reddit.py lines
115-137). -/
def redditOgVideoResult (normalized : List Char) (title : String)
    (ogImage : Option String) (v : String) : AnalyzeResult :=
  let fmt := ogVideoFmt v
  let item : Item :=
    { id := some (redditId normalized "reddit-media"),
      title := title, thumbnail := ogImage, duration := none,
      uploader := "Reddit", formats := [fmt], media_type := "video" }
  { title := item.title, thumbnail := item.thumbnail, duration := item.duration,
    uploader := item.uploader, media_type := item.media_type,
    mp4 := [fmt], mp3 := [], jpg := [], images := [], items := [item],
    count := 1, instant_available := true }

/-- The single-item result of the OpenGraph image path (reddit.py lines
149-171). -/
def redditOgImageResult (normalized : List Char) (title : String)
    (img : String) : AnalyzeResult :=
  let fg := ogImageFmt img
  let item : Item :=
    { id := some (redditId normalized "reddit-image"),
      title := title, thumbnail := some img, duration := none,
      uploader := "Reddit", formats := [fg], media_type := "image" }
  { title := item.title, thumbnail := item.thumbnail, duration := item.duration,
    uploader := item.uploader, media_type := item.media_type,
    mp4 := [], mp3 := [], jpg := [fg], images := [fg], items := [item],
    count := 1, instant_available := false }

/-- The value of the Reddit fallback once the page text is settled
(reddit.py lines 81-175): no text re-raises the fetch failure, a page
dispatches on its OpenGraph video and image tags, and every error leaving
the fallback is wrapped into the outer
`ConnectionError(f"Reddit analyze failed: {e2}")`. -/
def redditFallbackResult (normalized : List Char) (e : AErr)
    (text : Option (Option OgPage)) : Except AErr AnalyzeResult :=
  match text with
  | some (some page) =>
    match pyOrOptS page.ogVideoSecureUrl (pyOrOptS page.ogVideoUrl page.ogVideo) with
    | some v =>
      .ok (redditOgVideoResult normalized (pyOrS page.ogTitle "Reddit Media")
        (pyOrOptS page.ogImage page.twitterImage) v)
    | none =>
      match pyOrOptS page.ogImage page.twitterImage with
      | some img =>
        .ok (redditOgImageResult normalized (pyOrS page.ogTitle "Reddit Media") img)
      | none =>
        .error (.connectionError ("Reddit analyze failed: " ++
          "Reddit: No media found via OpenGraph"))
  | _ =>
    .error (.connectionError ("Reddit analyze failed: " ++
      "Reddit fetch failed: " ++ errMsg e))

/-- `analyze` (reddit.py lines 45-175): normalize, run the generic
`analyze_platform`, and on ANY exception from it (the pattern-guard
`ValueError` included) fetch the page and fall back to OpenGraph tags. -/
def redditAnalyze (env : ExtractEnv) (renv : RedditEnv)
    (thumbF : RawItem → Option String) (url : List Char) :
    Except AErr AnalyzeResult × List NetEvent :=
  let normalized := normalizeRedditUrl url
  let a := analyzePlatformT env thumbF "reddit" redditPatterns normalized
  match a.1 with
  | .ok r => (.ok r, a.2)
  | .error e =>
    let ft := redditFetchText renv normalized
    (redditFallbackResult normalized e ft.1, a.2 ++ ft.2)

/-! ## Facebook resolver (`facebook.py`)

The resolver operates on `normalized = _normalize_facebook_url(url)`; the
model takes that normalized URL as its input (URL canonicalization and the
fb.me redirect resolution are outside the analyzed branch structure). -/

/-- Matcher for facebook.py pattern 1:
`https?://(www\.)?facebook\.com/.*(photo\.php|...|/reels/).*` — after the
host, one of the endpoint literals must occur somewhere. -/
def fbPat1At (l : List Char) : Bool :=
  match schemeAt l with
  | none => false
  | some r =>
    let r2 := if startsWithL "www.".data r then r.drop 4 else r
    startsWithL "facebook.com/".data r2 &&
      (let rest := r2.drop 13
       hasSubL "photo.php".data rest || hasSubL "permalink.php".data rest ||
       hasSubL "video.php".data rest || hasSubL "watch".data rest ||
       hasSubL "/posts/".data rest || hasSubL "/photos/".data rest ||
       hasSubL "/videos/".data rest || hasSubL "/reel/".data rest ||
       hasSubL "/reels/".data rest)

/-- Matcher for facebook.py pattern 2, `https?://fb\.watch/.*`. -/
def fbPat2At (l : List Char) : Bool :=
  match schemeAt l with
  | none => false
  | some r => startsWithL "fb.watch/".data r

/-- Matcher for facebook.py pattern 3, `https?://fb\.me/.*`. -/
def fbPat3At (l : List Char) : Bool :=
  match schemeAt l with
  | none => false
  | some r => startsWithL "fb.me/".data r

/-- `URL_PATTERNS` of facebook.py lines 16-22 (all `re.I`). -/
def fbPatterns : List (List Char → Bool) :=
  [fun u => searchL fbPat1At (lowerL u),
   fun u => searchL fbPat2At (lowerL u),
   fun u => searchL fbPat3At (lowerL u)]

/-- Anchored matcher for `[?&]v=(?P<id>\d{8,})` (facebook.py line 330). -/
def fbVidQueryAt (l : List Char) : Option (List Char) :=
  match l with
  | c :: rest =>
    if (c = '?' || c = '&') && startsWithL "v=".data rest then
      let ds := (rest.drop 2).takeWhile isDigitC
      if ds.length ≥ 8 then some ds else none
    else none
  | [] => none

/-- Anchored matcher for `/(?P<id>\d{8,})(?:/|$)` (facebook.py line 332). -/
def fbVidPathAt (l : List Char) : Option (List Char) :=
  match l with
  | c :: rest =>
    if c = '/' then
      let ds := rest.takeWhile isDigitC
      if ds.length ≥ 8 &&
         (match rest.drop ds.length with
          | [] => true
          | d :: _ => d = '/') then some ds
      else none
    else none
  | [] => none

/-- The display-id extraction of the fallback paths (facebook.py lines
329-334): query `v=` first, then a long numeric path segment. -/
def fbVid (normalized : List Char) : Option String :=
  match findFirst fbVidQueryAt normalized with
  | some ds => some ⟨ds⟩
  | none =>
    match findFirst fbVidPathAt normalized with
    | some ds => some ⟨ds⟩
    | none => none

/-- `_build_direct_fmt` (facebook.py lines 137-156). -/
def fbDirectFmt (mp4url : List Char) : Fmt :=
  { format_id := some "direct-mp4", ext := "MP4", quality := "Video",
    url := some ⟨mp4url⟩, has_direct_url := true, is_progressive := true,
    type := "video", source := some "direct" }

/-- The minimal single-item result of the instant-fallback paths
(facebook.py lines 186-209 and 337-361 build this same shape). -/
def fbFallbackResult (normalized mp4url : List Char) : AnalyzeResult :=
  let fmt := fbDirectFmt mp4url
  let item : Item :=
    { id := some (pyOrS (fbVid normalized) "facebook-video"),
      title := "Facebook Video", thumbnail := none, duration := none,
      uploader := "Facebook", formats := [fmt], media_type := "video" }
  { title := item.title, thumbnail := item.thumbnail, duration := item.duration,
    uploader := item.uploader, media_type := item.media_type,
    mp4 := [fmt], mp3 := [], jpg := [], images := [], items := [item],
    count := 1, instant_available := true }

/-- The source-tagging loop of facebook.py lines 218-220 (the aliasing of
the same dicts from `result['items']` is not mirrored: only the `mp4` list
is re-tagged). -/
def tagYtdlp (res : AnalyzeResult) : AnalyzeResult :=
  { res with mp4 := res.mp4.map (fun f =>
      if f.source = none then { f with source := some "yt-dlp" } else f) }

/-- One probe format row of the Facebook augment path (facebook.py lines
254-282). -/
def fbProbeFmt (f : RawFormat) : Fmt :=
  { format_id := f.format_id,
    ext := "MP4",
    quality := if orZeroI f.height ≠ 0 then toString (orZeroI f.height) ++ "p"
               else "Video",
    height := some (orZeroI f.height),
    fps := f.fps,
    tbr := f.tbr,
    url := f.url,
    has_direct_url := truthyS f.url,
    is_progressive := decide (f.vcodec ≠ some "none") &&
      decide (f.acodec ≠ some "none"),
    vcodec := f.vcodec, acodec := f.acodec,
    type := "video", source := some "yt-dlp" }

/-- The probe format filter of facebook.py lines 256-262: mp4 container and
at least one positive dimension. -/
def fbProbeFormats (fl : List RawFormat) : List Fmt :=
  (fl.filter (fun f => lowerS (pyOrS f.ext "") = "mp4" &&
     !(orZeroI f.height ≤ 0 && orZeroI f.width ≤ 0))).map fbProbeFmt

/-- The playlist unwrap of the probe (facebook.py lines 246-249): a
playlist with entries yields its first entry, anything else the info dict
itself. -/
def fbProbeItem (info : RawInfo) : RawItem :=
  if info._type = some "playlist" then
    match info.entries with
    | some (e :: _) => e
    | _ => info.item
  else info.item

/-- The effectful dependencies of facebook.py `analyze`: the scraping
helper `get_facebook_mp4` (`.error` = raising, `.ok none` = no URL found),
the `FACEBOOK_FORCE_FALLBACK` env flag, and the quick yt-dlp metadata
probe of the augment path (`none` covering both a raise and a falsy
`info`, which the code treats alike). -/
structure FbEnv where
  helperMp4 : List Char → Except AErr (Option (List Char))
  forceFallback : Bool := false
  probe : List Char → Option RawInfo := fun _ => none

/-- The augmented single-item result of facebook.py lines 288-314: the
direct mp4 appended to whatever probe formats were recovered, with
metadata upgraded when the probe succeeded. -/
def fbAugment (res : AnalyzeResult) (probeInfo : Option RawInfo)
    (thumbF : RawItem → Option String) (normalized mp4url : List Char) :
    AnalyzeResult :=
  let it := probeInfo.map fbProbeItem
  let info_title : Option String :=
    match it with
    | some e => pyOrOptS e.title e.id
    | none => none
  let info_thumb : Option String :=
    match it with
    | some e => pyOrOptS res.thumbnail (pyOrOptS (thumbF e) e.thumbnail)
    | none => res.thumbnail
  let mp4_formats : List Fmt :=
    match it with
    | some e => fbProbeFormats e.formats
    | none => []
  let fmt := fbDirectFmt mp4url
  let item : Item :=
    { id := some (pyOrS (fbVid normalized) "facebook-video"),
      title := pyOrS info_title "Facebook Video",
      thumbnail := info_thumb, duration := none,
      uploader := "Facebook",
      formats := mp4_formats ++ [fmt], media_type := "video" }
  { title := item.title, thumbnail := item.thumbnail, duration := item.duration,
    uploader := item.uploader, media_type := item.media_type,
    mp4 := item.formats.filter (fun f => f.type = "video"),
    mp3 := [], jpg := res.jpg, images := res.images,
    items := [item], count := 1, instant_available := true }

/-- The regular flow of facebook.py `analyze` (lines 214-364): on success,
tag sources and augment via the helper only when no progressive mp4 is
present (helper failures never break the primary result); on ANY
extraction failure, the instant fallback returns the minimal single-item
result when the helper finds a URL, re-raises
`ValueError("No direct MP4 URL")` when it finds none, and re-raises the
helper error when the helper itself raises. -/
def fbMainFlow (env : ExtractEnv) (fenv : FbEnv)
    (thumbF : RawItem → Option String) (normalized : List Char) :
    Except AErr AnalyzeResult × List NetEvent :=
  let a := analyzePlatformT env thumbF "facebook" fbPatterns normalized
  match a.1 with
  | .ok res0 =>
    let res := tagYtdlp res0
    if !(res.mp4.any (fun f => f.is_progressive)) then
      match fenv.helperMp4 normalized with
      | .ok (some mp4url) =>
        (.ok (fbAugment res (fenv.probe normalized) thumbF normalized mp4url),
         a.2 ++ [NetEvent.helper normalized, NetEvent.probe normalized])
      | .ok none => (.ok res, a.2 ++ [NetEvent.helper normalized])
      | .error _ => (.ok res, a.2 ++ [NetEvent.helper normalized])
    else (.ok res, a.2)
  | .error _ =>
    match fenv.helperMp4 normalized with
    | .ok (some mp4url) =>
      (.ok (fbFallbackResult normalized mp4url), a.2 ++ [NetEvent.helper normalized])
    | .ok none =>
      (.error (.valueError "No direct MP4 URL"), a.2 ++ [NetEvent.helper normalized])
    | .error e2 => (.error e2, a.2 ++ [NetEvent.helper normalized])

/-- `analyze` (facebook.py lines 159-364): the `FACEBOOK_FORCE_FALLBACK`
fast path tries the helper first and falls through to the regular flow on
a falsy result or a raise. -/
def fbAnalyze (env : ExtractEnv) (fenv : FbEnv)
    (thumbF : RawItem → Option String) (normalized : List Char) :
    Except AErr AnalyzeResult × List NetEvent :=
  let main := fbMainFlow env fenv thumbF normalized
  if fenv.forceFallback then
    match fenv.helperMp4 normalized with
    | .ok (some mp4url) =>
      (.ok (fbFallbackResult normalized mp4url), [NetEvent.helper normalized])
    | _ => (main.1, NetEvent.helper normalized :: main.2)
  else main

/-! ## Concrete resolver environments for the C8 and C9 scenarios -/

def c8Env : ExtractEnv :=
  { extract := fun _ => .error (.connectionError "extractor offline"),
    extractFlat := fun _ => .error (.connectionError "extractor offline") }

def c8F : List Char → Option (Int × Option OgPage) :=
  fun _ => some (200, some {})

def c8REnv : RedditEnv := { httpxGet := some c8F, requestsGet := none }

def c8WUrl : List Char := "https://example.org/a".data

def c9Env : ExtractEnv :=
  { extract := fun _ => .error (.connectionError "extractor down"),
    extractFlat := fun _ => .error (.connectionError "extractor down") }

def c9Mp4 : List Char := "https://video.example/clip.mp4".data

def c9FEnv : FbEnv :=
  { helperMp4 := fun _ => .ok (some c9Mp4), forceFallback := false,
    probe := fun _ => none }

def c9Url : List Char := "https://www.facebook.com/watch/?v=123456789".data

def c9Ru : List Char := "https://redd.it/abc123".data

def c9V : String := "https://v.example/x.mp4"

def c9Page : OgPage :=
  { ogVideoUrl := some c9V, ogImage := some "https://i.example/t.jpg",
    ogTitle := some "A Reddit Post" }

def c9F : List Char → Option (Int × Option OgPage) :=
  fun _ => some (200, some c9Page)

def c9REnv : RedditEnv := { httpxGet := some c9F, requestsGet := none }

theorem rowLookup_rowReplace_self {Data : Type} (k : String) (r : CacheRow Data) :
    ∀ st : CacheState Data, rowLookup k (rowReplace k r st) = some r := by
  intro st
  induction st with
  | nil => simp [rowReplace, rowLookup]
  | cons hd tl ih =>
    obtain ⟨k', r'⟩ := hd
    by_cases h : k' = k
    · simp [rowReplace, rowLookup, h]
    · simp [rowReplace, rowLookup, h, ih]

theorem rowLookup_rowDelete_self {Data : Type} (k : String) :
    ∀ st : CacheState Data, rowLookup k (rowDelete k st) = none := by
  intro st
  induction st with
  | nil => simp [rowDelete, rowLookup]
  | cons hd tl ih =>
    obtain ⟨k', r'⟩ := hd
    by_cases h : k' = k
    · simp [rowDelete, h, ih]
    · simp [rowDelete, rowLookup, h, ih]

/-- Claim C6: after `set(u, d, p)` at time `t0`, a `get(u, p)` at time `t1`
within the TTL returns exactly the stored payload, while a `get` after the
TTL has elapsed returns `none`, deletes the row (which the `set` alone had
left in place: deletion is lazy, on read). -/
theorem claim_C6 {Data : Type} (hashFn : String → String) (ttl : Int)
    (st : CacheState Data) (u : String) (d : Data) (p : String) (t0 t1 : Int) :
    (t1 - t0 ≤ ttl →
      (cacheGet hashFn ttl (cacheSet hashFn st u d p t0) u p t1).1 = some d) ∧
    (t1 - t0 > ttl →
      (cacheGet hashFn ttl (cacheSet hashFn st u d p t0) u p t1).1 = none ∧
      rowLookup (hashFn u)
        (cacheGet hashFn ttl (cacheSet hashFn st u d p t0) u p t1).2 = none ∧
      rowLookup (hashFn u) (cacheSet hashFn st u d p t0) ≠ none) := by
  have hrow := @rowLookup_rowReplace_self Data (hashFn u)
    { url := u, platform := p, data := d,
      created_at := t0, accessed_at := t0, access_count := 1 } st
  constructor
  · intro hfresh
    have hnotexp : ¬ (t1 - t0 > ttl) := by omega
    simp [cacheGet, cacheSet, hrow, hnotexp]
  · intro hexp
    refine ⟨?_, ?_, ?_⟩
    · simp [cacheGet, cacheSet, hrow, hexp]
    · simp only [cacheGet, cacheSet] at hrow ⊢
      simp [hrow, hexp, rowLookup_rowDelete_self]
    · simp [cacheSet, hrow]

/-- Claim C6 witness: a concrete round-trip (payload 7, ttl 100) that is a
hit at time 50 and an expiring miss at time 101. -/
theorem claim_C6_witness :
    (cacheGet (fun s => s) 100 (cacheSet (fun s => s) ([] : CacheState Nat) "u" 7 "youtube" 0)
        "u" "youtube" 50).1 = some 7 ∧
    (cacheGet (fun s => s) 100 (cacheSet (fun s => s) ([] : CacheState Nat) "u" 7 "youtube" 0)
        "u" "youtube" 101).1 = none := by
  refine ⟨(claim_C6 (fun s => s) 100 [] "u" 7 "youtube" 0 50).1 (by decide),
          ((claim_C6 (fun s => s) 100 [] "u" 7 "youtube" 0 101).2 (by decide)).1⟩

/-- Claim C5 counterexample: the cache key hashes the URL alone, and
`INSERT OR REPLACE` is keyed by that hash, so `set(u, d2, B)` overwrites
the row written by `set(u, d, A)`; the subsequent `get(u, A)` returns
`none`, not `d` as the claim states.  (The behaviour is independent of the
concrete hash function, instantiated here with the identity.) -/
theorem claim_C5_counterexample :
    (cacheGet (fun s => s) 86400
      (cacheSet (fun s => s)
        (cacheSet (fun s => s) ([] : CacheState Nat) "u" 1 "youtube" 0)
        "u" 2 "facebook" 0)
      "u" "youtube" 0).1 ≠ some 1 ∧
    (cacheGet (fun s => s) 86400
      (cacheSet (fun s => s)
        (cacheSet (fun s => s) ([] : CacheState Nat) "u" 1 "youtube" 0)
        "u" 2 "facebook" 0)
      "u" "youtube" 0).1 = none := by
  constructor
  · decide
  · decide

/-- Claim C5 amended: the key is a hash of the normalized URL only; the
source (platform) is a row column that `get` filters on but `set`'s
`INSERT OR REPLACE` ignores, so entries for the same URL under two
different sources are NOT independent: after `set(u,d,A)` then
`set(u,d2,B)` with `A ≠ B`, `get(u,A)` returns `none` while `get(u,B)`
returns `d2`. -/
theorem claim_C5_amended {Data : Type} (hashFn : String → String) (ttl : Int)
    (st : CacheState Data) (u : String) (d d2 : Data) (A B : String) (t : Int)
    (hAB : A ≠ B) (httl : 0 ≤ ttl) :
    (cacheGet hashFn ttl
      (cacheSet hashFn (cacheSet hashFn st u d A t) u d2 B t) u A t).1 = none ∧
    (cacheGet hashFn ttl
      (cacheSet hashFn (cacheSet hashFn st u d A t) u d2 B t) u B t).1 = some d2 := by
  have hrow := @rowLookup_rowReplace_self Data (hashFn u)
    { url := u, platform := B, data := d2,
      created_at := t, accessed_at := t, access_count := 1 }
    (cacheSet hashFn st u d A t)
  have hBA : B ≠ A := fun h => hAB h.symm
  constructor
  · simp [cacheGet, cacheSet, hrow]
    simp only [cacheSet] at hrow
    simp [hrow, hBA]
  · have hnotexp : ¬ (t - t > ttl) := by omega
    have hnotneg : ¬ (ttl < 0) := by omega
    simp only [cacheGet, cacheSet] at hrow ⊢
    simp [hrow, hnotexp, hnotneg]

/-- Claim C5 amended, witness: concrete sources "youtube" and "facebook". -/
theorem claim_C5_amended_witness :
    (cacheGet (fun s => s) 86400
      (cacheSet (fun s => s)
        (cacheSet (fun s => s) ([] : CacheState Nat) "u" 1 "youtube" 0)
        "u" 2 "facebook" 0)
      "u" "youtube" 0).1 = none ∧
    (cacheGet (fun s => s) 86400
      (cacheSet (fun s => s)
        (cacheSet (fun s => s) ([] : CacheState Nat) "u" 1 "youtube" 0)
        "u" 2 "facebook" 0)
      "u" "facebook" 0).1 = some 2 :=
  claim_C5_amended (fun s => s) 86400 [] "u" 1 2 "youtube" "facebook" 0
    (by decide) (by decide)

/-! ## Lexicographic-order facts for the preference tuple -/

theorem lexLt_nil_left : ∀ b bs, lexLt [] (b :: bs) = true := by
  intro b bs; rfl

theorem lexLt_nil_right : ∀ a, lexLt a [] = false := by
  intro a; cases a <;> rfl

theorem lexLt_asymm : ∀ a b : List Int, lexLt a b = true → lexLt b a = false := by
  intro a
  induction a with
  | nil => intro b h; cases b <;> simp_all [lexLt]
  | cons x xs ih =>
    intro b h
    cases b with
    | nil => simp [lexLt] at h
    | cons y ys =>
      simp only [lexLt] at h ⊢
      by_cases h1 : x < y
      · have h2 : ¬ y < x := by omega
        have h3 : ¬ y = x := by omega
        simp [h2, h3]
      · by_cases h2 : x = y
        · subst h2
          simp only [h1, if_false, if_neg, lt_irrefl, if_pos rfl] at h ⊢
          simp at h
          simp [ih ys h]
        · simp [h1, h2] at h

theorem lexLt_trans : ∀ a b c : List Int,
    lexLt a b = true → lexLt b c = true → lexLt a c = true := by
  intro a
  induction a with
  | nil =>
    intro b c hab hbc
    cases b with
    | nil => simp [lexLt] at hab
    | cons y ys =>
      cases c with
      | nil => simp [lexLt_nil_right] at hbc
      | cons z zs => exact lexLt_nil_left z zs
  | cons x xs ih =>
    intro b c hab hbc
    cases b with
    | nil => simp [lexLt_nil_right] at hab
    | cons y ys =>
      cases c with
      | nil => simp [lexLt_nil_right] at hbc
      | cons z zs =>
        simp only [lexLt] at hab hbc ⊢
        by_cases h1 : x < y
        · by_cases h2 : y < z
          · have : x < z := by omega
            simp [this]
          · by_cases h3 : y = z
            · subst h3; simp [h1]
            · simp [h2, h3] at hbc
        · by_cases h2 : x = y
          · subst h2
            by_cases h3 : x < z
            · simp [h3]
            · by_cases h4 : x = z
              · subst h4
                simp only [h1, if_neg, lt_irrefl, if_pos rfl] at hab hbc ⊢
                simp at hab hbc ⊢
                exact ih ys zs hab hbc
              · simp [h3, h4] at hbc
          · simp [h1, h2] at hab

theorem lexLt_total : ∀ a b : List Int, a.length = b.length →
    lexLt a b = false → lexLt b a = false → a = b := by
  intro a
  induction a with
  | nil =>
    intro b hlen _ _
    cases b with
    | nil => rfl
    | cons y ys => simp at hlen
  | cons x xs ih =>
    intro b hlen hab hba
    cases b with
    | nil => simp at hlen
    | cons y ys =>
      simp only [lexLt] at hab hba
      by_cases h1 : x < y
      · simp [h1] at hab
      · by_cases h2 : x = y
        · subst h2
          simp only [h1, if_neg, lt_irrefl, if_pos rfl] at hab hba
          simp at hab hba
          have : xs = ys := ih ys (by simpa using hlen) hab hba
          rw [this]
        · have h3 : y < x := by omega
          simp [h3] at hba

/-- Componentwise domination plus inequality forces strict lexicographic
order. -/
theorem compGeB_ne_lexLt : ∀ a b : List Int,
    compGeB a b = true → a ≠ b → lexLt b a = true := by
  intro a
  induction a with
  | nil =>
    intro b hge hne
    cases b with
    | nil => exact absurd rfl hne
    | cons y ys => simp [compGeB] at hge
  | cons x xs ih =>
    intro b hge hne
    cases b with
    | nil => simp [compGeB] at hge
    | cons y ys =>
      simp only [compGeB, Bool.and_eq_true, decide_eq_true_eq] at hge
      obtain ⟨hxy, hrest⟩ := hge
      by_cases h1 : y < x
      · simp [lexLt, h1]
      · have h2 : x = y := by omega
        subst h2
        have hne' : xs ≠ ys := by
          intro h; exact hne (by rw [h])
        simp [lexLt, ih ys hrest hne']

theorem compGeB_length : ∀ a b : List Int, compGeB a b = true → a.length = b.length := by
  intro a
  induction a with
  | nil => intro b h; cases b <;> simp_all [compGeB]
  | cons x xs ih =>
    intro b h
    cases b with
    | nil => simp [compGeB] at h
    | cons y ys =>
      simp only [compGeB, Bool.and_eq_true] at h
      simp [ih ys h.2]

/-! ## Sortedness and permutation facts for the stable descending sort -/

theorem sortIns_perm (x : Fmt) : ∀ l, List.Perm (sortIns x l) (x :: l) := by
  intro l
  induction l with
  | nil => exact List.Perm.refl _
  | cons y ys ih =>
    cases hc : lexLt (specTuple x) (specTuple y) with
    | false => simp [sortIns, hc]
    | true =>
      simp only [sortIns, hc, if_true]
      exact List.Perm.trans (List.Perm.cons y ih) (List.Perm.swap x y ys)

theorem mem_sortIns (x z : Fmt) (l : List Fmt) (h : z ∈ sortIns x l) :
    z = x ∨ z ∈ l := by
  have := (sortIns_perm x l).mem_iff.mp h
  simpa using this

theorem pairwise_sortIns (x : Fmt) : ∀ l, l.Pairwise tupGe →
    (sortIns x l).Pairwise tupGe := by
  intro l
  induction l with
  | nil => intro _; simp [sortIns]
  | cons y ys ih =>
    intro hp
    rcases List.pairwise_cons.mp hp with ⟨hy, hys⟩
    cases hc : lexLt (specTuple x) (specTuple y) with
    | true =>
      simp only [sortIns, hc, if_true]
      refine List.pairwise_cons.mpr ⟨?_, ih hys⟩
      intro z hz
      rcases mem_sortIns x z ys hz with rfl | hz'
      · exact lexLt_asymm _ _ hc
      · exact hy z hz'
    | false =>
      simp only [sortIns, hc, Bool.false_eq_true, if_false]
      refine List.pairwise_cons.mpr ⟨?_, hp⟩
      intro z hz
      rcases List.mem_cons.mp hz with rfl | hz'
      · exact hc
      · have hyz : lexLt (specTuple y) (specTuple z) = false := hy z hz'
        show lexLt (specTuple x) (specTuple z) = false
        by_contra hxz
        have hxz' : lexLt (specTuple x) (specTuple z) = true := by
          revert hxz; cases lexLt (specTuple x) (specTuple z) <;> simp
        cases hyx : lexLt (specTuple y) (specTuple x) with
        | true =>
          have := lexLt_trans _ _ _ hyx hxz'
          rw [this] at hyz; cases hyz
        | false =>
          have heq := lexLt_total (specTuple x) (specTuple y) rfl hc hyx
          rw [heq] at hxz'
          rw [hxz'] at hyz; cases hyz

theorem sortDesc_pairwise : ∀ l, (sortDesc l).Pairwise tupGe := by
  intro l
  induction l with
  | nil => simp [sortDesc]
  | cons x xs ih => exact pairwise_sortIns x _ ih

theorem sortDesc_perm : ∀ l, List.Perm (sortDesc l) l := by
  intro l
  induction l with
  | nil => exact List.Perm.refl _
  | cons x xs ih =>
    exact List.Perm.trans (sortIns_perm x (sortDesc xs)) (List.Perm.cons x ih)

/-! ## Invariants of the YouTube dedup map -/

theorem ytKeyOf_eq_fmtKey (f : RawFormat) : ytKeyOf f = fmtKey (ytEntryOf f) := rfl

theorem ytInsert_fst (f : RawFormat) : ∀ m : List (String × Fmt),
    (ytInsert f m).map Prod.fst =
      if ytKeyOf f ∈ m.map Prod.fst then m.map Prod.fst
      else m.map Prod.fst ++ [ytKeyOf f] := by
  intro m
  induction m with
  | nil => simp [ytInsert]
  | cons p rest ih =>
    obtain ⟨k, e⟩ := p
    by_cases hk : k = ytKeyOf f
    · subst hk
      cases hlex : lexLt (specTuple e) (specTuple (ytEntryOf f)) <;>
        simp [ytInsert, hlex]
    · have hne : ¬ ytKeyOf f = k := fun h => hk h.symm
      simp only [ytInsert, if_neg hk, List.map_cons, List.mem_cons, ih]
      by_cases hmem : ytKeyOf f ∈ List.map Prod.fst rest
      · simp [hmem, hne]
      · simp [hmem, hne]

theorem ytInsert_snd_wf (f : RawFormat) : ∀ m, (∀ p ∈ m, p.1 = fmtKey p.2) →
    ∀ p ∈ ytInsert f m, p.1 = fmtKey p.2 := by
  intro m
  induction m with
  | nil =>
    intro _ p hp
    simp only [ytInsert, List.mem_singleton] at hp
    subst hp
    exact ytKeyOf_eq_fmtKey f
  | cons q rest ih =>
    obtain ⟨k, e⟩ := q
    intro hm p hp
    have hhead : k = fmtKey e := hm _ (List.mem_cons_self _ _)
    have htail : ∀ p ∈ rest, p.1 = fmtKey p.2 :=
      fun p hp => hm _ (List.mem_cons_of_mem _ hp)
    by_cases hk : k = ytKeyOf f
    · subst hk
      cases hlex : lexLt (specTuple e) (specTuple (ytEntryOf f)) <;>
        simp only [ytInsert, hlex, if_pos rfl, if_true, Bool.false_eq_true,
          if_false, List.mem_cons] at hp
      · rcases hp with rfl | hp'
        · exact hhead
        · exact htail _ hp'
      · rcases hp with rfl | hp'
        · exact ytKeyOf_eq_fmtKey f
        · exact htail _ hp'
    · simp only [ytInsert, if_neg hk, List.mem_cons] at hp
      rcases hp with rfl | hp'
      · exact hhead
      · exact ih htail _ hp'

theorem ytInsert_wf (f : RawFormat) (m : List (String × Fmt)) (hm : MapWf m) :
    MapWf (ytInsert f m) := by
  obtain ⟨hnd, hwf⟩ := hm
  refine ⟨?_, ytInsert_snd_wf f m hwf⟩
  rw [ytInsert_fst]
  by_cases hmem : ytKeyOf f ∈ m.map Prod.fst
  · simpa [hmem] using hnd
  · simp only [hmem, if_false]
    rw [List.nodup_append]
    refine ⟨hnd, List.nodup_singleton _, fun x hx hx' => ?_⟩
    simp only [List.mem_singleton] at hx'
    subst hx'
    exact hmem hx

theorem ytBuildMap_wf (fs : List RawFormat) : MapWf (ytBuildMap fs) := by
  have main : ∀ (gs : List RawFormat) (m : List (String × Fmt)), MapWf m →
      MapWf (gs.foldl (fun m f => if ytPasses f then ytInsert f m else m) m) := by
    intro gs
    induction gs with
    | nil => intro m hm; exact hm
    | cons g gs ih =>
      intro m hm
      simp only [List.foldl_cons]
      by_cases hg : ytPasses g = true
      · simp only [hg, if_true]
        exact ih _ (ytInsert_wf g m hm)
      · simp only [hg, Bool.false_eq_true, if_false]
        exact ih _ hm
  have h0 : MapWf ([] : List (String × Fmt)) := ⟨List.nodup_nil, by simp⟩
  exact main fs [] h0

theorem pairwise_values_of_wf (m : List (String × Fmt)) (h : MapWf m) :
    (m.map Prod.snd).Pairwise (fun a b => fmtKey a ≠ fmtKey b) := by
  obtain ⟨hnd, hwf⟩ := h
  have h1 : m.Pairwise (fun p q => p.1 ≠ q.1) := List.pairwise_map.mp hnd
  have h2 : m.Pairwise (fun p q => fmtKey p.2 ≠ fmtKey q.2) := by
    refine List.Pairwise.imp_of_mem ?_ h1
    intro p q hp hq hne
    rw [hwf p hp, hwf q hq] at hne
    exact hne
  exact List.pairwise_map.mpr h2

/-! ## Invariants of the generic video dedup loop -/

theorem passes_ext (f : RawFormat) (h : passesVideoFilter f = true) :
    lowerS (pyOrS f.ext "mp4") = "mp4" := by
  simp only [passesVideoFilter, Bool.not_eq_true', Bool.or_eq_false_iff,
    decide_eq_false_iff_not, not_not] at h
  exact h.2

theorem baseKey_baseVideoFmt (f : RawFormat) (h : passesVideoFilter f = true) :
    baseKey (baseVideoFmt f) = videoKeyOf f := by
  have hext := passes_ext f h
  have hlow : lowerS (upperS "mp4") = "mp4" := by decide
  simp [baseKey, baseVideoFmt, videoKeyOf, orZeroI, hext, hlow]

theorem baseVideoFmt_type (f : RawFormat) : (baseVideoFmt f).type = "video" := rfl

theorem buildVideoFormats_inv :
    ∀ (fs : List RawFormat) (seen : List (Int × Int × String × Int)),
    (∀ e ∈ buildVideoFormats fs seen, e.type = "video" ∧ baseKey e ∉ seen) ∧
    (buildVideoFormats fs seen).Pairwise (fun a b => baseKey a ≠ baseKey b) := by
  intro fs
  induction fs with
  | nil =>
    intro seen
    constructor
    · intro e he; simp [buildVideoFormats] at he
    · simp [buildVideoFormats]
  | cons f rest ih =>
    intro seen
    by_cases hpass : passesVideoFilter f = true
    · by_cases hmem : videoKeyOf f ∈ seen
      · simp only [buildVideoFormats, hpass, if_true, hmem, if_pos]
        exact ih seen
      · obtain ⟨ihA, ihP⟩ := ih (videoKeyOf f :: seen)
        simp only [buildVideoFormats, hpass, if_true, hmem, if_false]
        constructor
        · intro e he
          rcases List.mem_cons.mp he with rfl | he'
          · refine ⟨baseVideoFmt_type f, ?_⟩
            rw [baseKey_baseVideoFmt f hpass]
            exact hmem
          · obtain ⟨h1, h2⟩ := ihA e he'
            exact ⟨h1, fun hs => h2 (List.mem_cons_of_mem _ hs)⟩
        · refine List.pairwise_cons.mpr ⟨?_, ihP⟩
          intro z hz hkeyeq
          have h2 := (ihA z hz).2
          rw [← hkeyeq, baseKey_baseVideoFmt f hpass] at h2
          exact h2 (List.mem_cons_self _ _)
    · simp only [buildVideoFormats, hpass, Bool.false_eq_true, if_false]
      exact ih seen

theorem buildImageFormats_type (it : RawItem) :
    ∀ e ∈ buildImageFormats it, e.type = "image" := by
  intro e he
  unfold buildImageFormats at he
  cases hdr : it.display_resources with
  | some drs =>
    rw [hdr] at he
    simp only [List.mem_map] at he
    obtain ⟨p, _, rfl⟩ := he
    rfl
  | none =>
    rw [hdr] at he
    cases hth : it.thumbnails with
    | some ts =>
      rw [hth] at he
      simp only [List.mem_map] at he
      obtain ⟨t, _, rfl⟩ := he
      rfl
    | none =>
      rw [hth] at he
      cases hurl : it.url with
      | some u =>
        rw [hurl] at he
        simp only [List.mem_singleton] at he
        subst he
        rfl
      | none => rw [hurl] at he; cases he

/-- Equal `(height, fps, ext, tbr)` fields force equal recomputed base
keys. -/
theorem baseKey_congr (a b : Fmt) (h1 : a.height = b.height) (h2 : a.fps = b.fps)
    (h3 : a.ext = b.ext) (h4 : a.tbr = b.tbr) : baseKey a = baseKey b := by
  simp [baseKey, h1, h2, h3, h4]

/-- Equal `(height, fps, ext, tbr)` fields force equal recomputed YouTube
map keys. -/
theorem fmtKey_congr (a b : Fmt) (h1 : a.height = b.height) (h2 : a.fps = b.fps)
    (h3 : a.ext = b.ext) : fmtKey a = fmtKey b := by
  simp [fmtKey, h1, h2, h3]

/-- Claim C2: within one resolution result of the generic builder, and in
the YouTube builder's output, no two video formats share the
`(height, fps, container, bitrate)` key. -/
theorem claim_C2 :
    (∀ (thumbF : RawItem → Option String) (platform : String) (entries : List RawItem),
      match analyzeBuild thumbF platform entries with
      | .error _ => True
      | .ok r =>
        r.mp4.Pairwise (fun a b =>
          ¬(a.height = b.height ∧ a.fps = b.fps ∧ a.ext = b.ext ∧ a.tbr = b.tbr))) ∧
    (∀ fs : List RawFormat,
      (ytVideoFormats fs).Pairwise (fun a b =>
        ¬(a.height = b.height ∧ a.fps = b.fps ∧ a.ext = b.ext ∧ a.tbr = b.tbr))) := by
  constructor
  · intro thumbF platform entries
    cases hm : entries.map (normalizeItem thumbF platform) with
    | nil => simp [analyzeBuild, hm]
    | cons first rest =>
      simp only [analyzeBuild, hm]
      obtain ⟨e0, es, rfl, he0, hes⟩ := List.map_eq_cons_iff.mp hm
      subst he0
      show ((normalizeItem thumbF platform e0).formats.filter
        (fun f => f.type = "video")).Pairwise _
      by_cases hv : hasVideoMp4 e0.formats = true
      · obtain ⟨hA, hP⟩ := buildVideoFormats_inv e0.formats []
        have hform : (normalizeItem thumbF platform e0).formats =
            buildVideoFormats e0.formats [] := by
          simp [normalizeItem, hv]
        rw [hform]
        have hfilter : (buildVideoFormats e0.formats []).filter
            (fun f => f.type = "video") = buildVideoFormats e0.formats [] := by
          rw [List.filter_eq_self]
          intro a ha
          simp [(hA a ha).1]
        rw [hfilter]
        refine hP.imp ?_
        intro a b hne hcomp
        exact hne (baseKey_congr a b hcomp.1 hcomp.2.1 hcomp.2.2.1 hcomp.2.2.2)
      · have hform : (normalizeItem thumbF platform e0).formats =
            buildImageFormats e0 := by
          simp [normalizeItem, hv]
        rw [hform]
        have hfilter : (buildImageFormats e0).filter
            (fun f => f.type = "video") = [] := by
          rw [List.filter_eq_nil_iff]
          intro a ha
          simp [buildImageFormats_type e0 a ha]
        rw [hfilter]
        exact List.Pairwise.nil
  · intro fs
    have h1 := pairwise_values_of_wf _ (ytBuildMap_wf fs)
    have h2 : ((ytBuildMap fs).map Prod.snd).Pairwise (fun a b =>
        ¬(a.height = b.height ∧ a.fps = b.fps ∧ a.ext = b.ext ∧ a.tbr = b.tbr)) := by
      refine h1.imp ?_
      intro a b hne hcomp
      exact hne (fmtKey_congr a b hcomp.1 hcomp.2.1 hcomp.2.2.1)
    exact ((sortDesc_perm _).pairwise_iff
      (fun {a b} h hc => h ⟨hc.1.symm, hc.2.1.symm, hc.2.2.1.symm, hc.2.2.2.symm⟩)).mpr h2

/-- Claim C1 counterexample: the source `instagram`, given one item with a
progressive, directly fetchable 720p MP4 format, still reports
`instant_available = false` — the claimed iff fails for non-Facebook
sources because `analyze_platform` computes the flag only when
`platform_name` is `facebook`. -/
theorem claim_C1_counterexample :
    (analyzeBuild (fun _ => none) "instagram" [itemProg720]).toOption.map
        (fun r => r.instant_available) = some false ∧
    (analyzeBuild (fun _ => none) "instagram" [itemProg720]).toOption.map
        (fun r => r.mp4.any (fun f => f.is_progressive && f.has_direct_url)) =
      some true := by
  constructor
  · decide
  · decide

/-- Claim C1 amended: `instant_available` is true iff the platform is
`facebook` (case-insensitively) and some item carries a video format with
container `MP4` and `is_progressive = true`; a direct URL is not required,
and every other source always reports `false`. -/
theorem claim_C1_amended :
    ∀ (thumbF : RawItem → Option String) (platform : String) (entries : List RawItem),
      match analyzeBuild thumbF platform entries with
      | .error _ => True
      | .ok r =>
        (r.instant_available = true ↔
          lowerS platform = "facebook" ∧
          ∃ it ∈ r.items, ∃ f ∈ it.formats,
            f.type = "video" ∧ upperS f.ext = "MP4" ∧ f.is_progressive = true) := by
  intro thumbF platform entries
  cases hm : entries.map (normalizeItem thumbF platform) with
  | nil => simp [analyzeBuild, hm]
  | cons first rest =>
    simp only [analyzeBuild, hm]
    show instantCheck platform (first :: rest) = true ↔ _
    simp [instantCheck, List.any_eq_true, Bool.and_eq_true, decide_eq_true_eq,
      and_assoc]

/-- Claim C3 counterexample: two raw descriptors with the same
`(height, fps, ext, tbr)` dedup key, the first video-only, the second
progressive: the generic builder keeps the FIRST entry even though the
second's preference tuple is strictly greater, so "keeps only the entry
whose preference tuple is strictly greater" is false for it. -/
theorem claim_C3_counterexample :
    buildVideoFormats [rfC3VideoOnly, rfC3Prog] [] = [baseVideoFmt rfC3VideoOnly] ∧
    videoKeyOf rfC3VideoOnly = videoKeyOf rfC3Prog ∧
    lexLt (specTuple (baseVideoFmt rfC3VideoOnly))
      (specTuple (baseVideoFmt rfC3Prog)) = true := by
  refine ⟨?_, ?_, ?_⟩ <;> decide

/-- Claim C3 amended: the YouTube builder keeps, of two entrants to the
same dedup key, the one with the strictly greater preference tuple, the
first-seen winning exact ties; the generic builder instead keeps the
first-seen entrant unconditionally.  In both, two identical descriptors
leave exactly one retained entry, the first. -/
theorem claim_C3_amended :
    (∀ f1 f2 : RawFormat, ytPasses f1 = true → ytPasses f2 = true →
      ytKeyOf f1 = ytKeyOf f2 →
      ytVideoFormats [f1, f2] =
        [if lexLt (specTuple (ytEntryOf f1)) (specTuple (ytEntryOf f2))
          then ytEntryOf f2 else ytEntryOf f1]) ∧
    (∀ f1 f2 : RawFormat, passesVideoFilter f1 = true → passesVideoFilter f2 = true →
      videoKeyOf f1 = videoKeyOf f2 →
      buildVideoFormats [f1, f2] [] = [baseVideoFmt f1]) := by
  constructor
  · intro f1 f2 h1 h2 hkey
    simp only [ytVideoFormats, ytBuildMap, List.foldl_cons, List.foldl_nil,
      h1, h2, if_true]
    simp only [ytInsert, hkey, if_pos]
    cases hlex : lexLt (specTuple (ytEntryOf f1)) (specTuple (ytEntryOf f2)) <;>
      simp [hlex, sortDesc, sortIns]
  · intro f1 f2 h1 h2 hkey
    simp [buildVideoFormats, h1, h2, hkey]

/-- Claim C3 amended, witness: duplicate identical progressive 720p
descriptors keep exactly the first in both builders, and the YouTube
builder keeps the strictly greater entrant of `rfC3VideoOnly`/`rfC3Prog`. -/
theorem claim_C3_amended_witness :
    ytVideoFormats [rfProg720, rfProg720] = [ytEntryOf rfProg720] ∧
    buildVideoFormats [rfProg720, rfProg720] [] = [baseVideoFmt rfProg720] ∧
    ytVideoFormats [rfC3VideoOnly, rfC3Prog] = [ytEntryOf rfC3Prog] := by
  refine ⟨?_, ?_, ?_⟩
  · have h := claim_C3_amended.1 rfProg720 rfProg720 (by decide) (by decide) rfl
    simpa using h
  · exact claim_C3_amended.2 rfProg720 rfProg720 (by decide) (by decide) rfl
  · have h := claim_C3_amended.1 rfC3VideoOnly rfC3Prog (by decide) (by decide) (by decide)
    rw [h]
    decide

/-- Claim C4 counterexample: the generic builder does not sort its video
list at all — with the dominated 360p descriptor listed first, its output
keeps input order, so the format whose tuple dominates appears after the
dominated one, falsifying the claimed ranking property. -/
theorem claim_C4_counterexample :
    ¬ rankedByTuple mp4LowThenHigh ∧
    mp4LowThenHigh = [baseVideoFmt rfLow360, baseVideoFmt rfProg720] := by
  constructor
  · intro h
    have h10 := h 1 0 (by decide) (by decide) (by decide)
    omega
  · decide

/-- Claim C4 amended: the YouTube builder's output is sorted descending by
preference tuple: if A's tuple dominates B's componentwise and the tuples
differ, A appears no later than B.  (Formats with exactly equal tuples keep
insertion order, and the generic builder does not sort — see the
counterexample.) -/
theorem claim_C4_amended (fs : List RawFormat) (i j : Nat)
    (hi : i < (ytVideoFormats fs).length) (hj : j < (ytVideoFormats fs).length)
    (hge : compGeB (specTuple ((ytVideoFormats fs).get ⟨i, hi⟩))
                   (specTuple ((ytVideoFormats fs).get ⟨j, hj⟩)) = true)
    (hne : specTuple ((ytVideoFormats fs).get ⟨i, hi⟩) ≠
           specTuple ((ytVideoFormats fs).get ⟨j, hj⟩)) :
    i ≤ j := by
  by_contra hij
  have hji : j < i := by omega
  have hsorted := sortDesc_pairwise ((ytBuildMap fs).map Prod.snd)
  have hpg : tupGe ((ytVideoFormats fs).get ⟨j, hj⟩) ((ytVideoFormats fs).get ⟨i, hi⟩) :=
    List.pairwise_iff_get.mp hsorted ⟨j, hj⟩ ⟨i, hi⟩ hji
  have hlt := compGeB_ne_lexLt _ _ hge hne
  have hpg' : lexLt (specTuple ((ytVideoFormats fs).get ⟨j, hj⟩))
      (specTuple ((ytVideoFormats fs).get ⟨i, hi⟩)) = false := hpg
  rw [hlt] at hpg'
  cases hpg'

/-- Claim C4 amended, witness: in the YouTube output for the two-format
input, the dominating 720p progressive entry sits at index 0, before the
dominated 360p entry at index 1. -/
theorem claim_C4_amended_witness :
    (0 : Nat) ≤ 1 ∧ (ytVideoFormats [rfLow360, rfProg720]).length = 2 :=
  ⟨claim_C4_amended [rfLow360, rfProg720] 0 1 (by decide) (by decide)
    (by decide) (by decide), by decide⟩

/-! ## Character-class facts used by the planner proofs -/

theorem isDigit_not_space (c : Char) (h : isDigitC c = true) : isSpaceC c = false := by
  simp only [isDigitC, Bool.and_eq_true, decide_eq_true_eq] at h
  by_contra hs
  have hs' : isSpaceC c = true := by revert hs; cases isSpaceC c <;> simp
  simp only [isSpaceC, Bool.or_eq_true, decide_eq_true_eq] at hs'
  rcases hs' with ((((h' | h') | h') | h') | h') | h' <;>
    (subst h'; revert h; decide)

theorem digits_lower (l : List Char) (h : l.all isDigitC = true) : lowerL l = l := by
  induction l with
  | nil => rfl
  | cons c cs ih =>
    simp only [List.all_cons, Bool.and_eq_true] at h
    have hc : lowerC c = c := by
      simp only [isDigitC, Bool.and_eq_true, decide_eq_true_eq] at h
      simp only [lowerC]
      rw [if_neg]
      omega
    have ih' : List.map lowerC cs = cs := ih h.2
    simp [lowerL, hc, ih']

theorem digits_not_mem (l : List Char) (h : l.all isDigitC = true)
    (c : Char) (hc : isDigitC c = false) : ¬ c ∈ l := by
  intro hmem
  rw [List.all_eq_true] at h
  rw [h c hmem] at hc
  cases hc

theorem digits_not_contains (l : List Char) (h : l.all isDigitC = true)
    (c : Char) (hc : isDigitC c = false) : l.contains c = false := by
  cases hco : l.contains c with
  | false => rfl
  | true =>
    have hmem : c ∈ l := by simpa using hco
    exact absurd hmem (digits_not_mem l h c hc)

theorem splitOnC_no_sep (sep : Char) (l : List Char) (h : l.contains sep = false) :
    splitOnC sep l = [l] := by
  induction l with
  | nil => rfl
  | cons c cs ih =>
    simp only [List.contains_cons, Bool.or_eq_false_iff] at h
    have hcs : ¬ c = sep := by
      intro he; subst he
      simp at h
    rw [splitOnC, if_neg hcs, ih h.2]

theorem startsWithL_append_self (p t : List Char) : startsWithL p (p ++ t) = true := by
  induction p with
  | nil => rfl
  | cons c cs ih => simp [startsWithL, ih]

theorem dropWhile_space_of_digits (l : List Char) (h : l.all isDigitC = true) :
    l.dropWhile isSpaceC = l := by
  cases l with
  | nil => rfl
  | cons c cs =>
    simp only [List.all_cons, Bool.and_eq_true] at h
    simp [List.dropWhile_cons, isDigit_not_space c h.1]

theorem stripWs_of_digits (l : List Char) (h : l.all isDigitC = true) :
    stripWs l = l := by
  unfold stripWs
  rw [dropWhile_space_of_digits l h]
  have hrev : l.reverse.all isDigitC = true := by
    simp only [List.all_eq_true] at h ⊢
    intro c hc
    exact h c (List.mem_reverse.mp hc)
  rw [dropWhile_space_of_digits l.reverse hrev, List.reverse_reverse]

theorem pyIntL_digits (l : List Char) (hne : l ≠ []) (h : l.all isDigitC = true) :
    pyIntL l = some (digitsVal l) := by
  unfold pyIntL
  rw [stripWs_of_digits l h]
  cases l with
  | nil => exact absurd rfl hne
  | cons c cs =>
    have hc : isDigitC c = true := by
      simp only [List.all_cons, Bool.and_eq_true] at h
      exact h.1
    have hcp : c ≠ '+' := by intro he; subst he; revert hc; decide
    have hcm : c ≠ '-' := by intro he; subst he; revert hc; decide
    split
    · simp_all
    · rename_i heq
      rw [List.cons.injEq] at heq
      exact absurd heq.1 hcp
    · rename_i heq
      rw [List.cons.injEq] at heq
      exact absurd heq.1 hcm
    · rename_i heq _ _
      rw [if_pos h]

/-- Claim C7 counterexample: the YouTube planner, asked for `mp3_500`,
builds a transcode plan whose `preferredquality` is `500` — outside
`[32, 320]`, with no clamp and no warning — so "for every mp3_<bitrate>
format id given to the fulfillment planner, the bitrate is clamped" is
false. -/
theorem claim_C7_counterexample :
    (ytPrepareDownload "mp3_500" (.error ())).mp3Quality = some 500 ∧
    ¬ ((500 : Int) ≤ 320) := by
  constructor
  · decide
  · decide

/-- Claim C7 amended: the generic planner (`prepare_download_options`)
clamps `mp3_<2-3 digits>` bitrates into `[32, 320]` and logs exactly when
the clamp changed the value (so `mp3_500` gives 320, flagged); the
YouTube-specific planner (`prepare_download`) instead uses the parsed
bitrate unclamped. -/
theorem claim_C7_amended :
    (∀ (platform : String) (analyzed : AnalyzeResult) (fbHelper : Option String)
       (ds : String),
      ds.data.all isDigitC = true →
      2 ≤ ds.data.length ∧ ds.data.length ≤ 3 →
      findInstantAudioTop ("mp3_" ++ ds) analyzed.mp3 = none →
      findInstantAudioItems ("mp3_" ++ ds) analyzed.items = none →
      prepareDownloadOptions platform ("mp3_" ++ ds) analyzed fbHelper =
        .ok (.mp3Extract (max 32 (min 320 (digitsVal ds.data)))
          (max 32 (min 320 (digitsVal ds.data)) ≠ digitsVal ds.data)) ∧
      32 ≤ max 32 (min 320 (digitsVal ds.data)) ∧
      max 32 (min 320 (digitsVal ds.data)) ≤ 320 ∧
      ((max 32 (min 320 (digitsVal ds.data)) ≠ digitsVal ds.data) ↔
        (digitsVal ds.data < 32 ∨ 320 < digitsVal ds.data))) ∧
    (∀ (s : String) (probe : Except Unit (List RawFormat)),
      s.data ≠ [] → s.data.all isDigitC = true →
      (ytPrepareDownload ("mp3_" ++ s) probe).mp3Quality =
        some (digitsVal s.data) ∧
      (ytPrepareDownload ("mp3_" ++ s) probe).format = "bestaudio") := by
  constructor
  · intro platform analyzed fbHelper ds hdig hlen htop hitems
    have hfdata : ("mp3_" ++ ds).data = 'm' :: 'p' :: '3' :: '_' :: ds.data := by
      rw [String.data_append]; rfl
    have himg : startsWithS ("mp3_" ++ ds) "img" = false := by
      unfold startsWithS
      rw [hfdata, show "img".data = ['i', 'm', 'g'] from rfl]
      simp [startsWithL]
    have hne : ("mp3_" ++ ds) ≠ "" := by
      intro he
      have := congrArg String.data he
      rw [hfdata] at this
      simp at this
    have hplus : hasPlus ("mp3_" ++ ds) = false := by
      unfold hasPlus
      rw [hfdata]
      have h4 : isDigitC '+' = false := by decide
      have hds := digits_not_contains ds.data hdig '+' h4
      have hmem := digits_not_mem ds.data hdig '+' h4
      simp only [List.contains_cons]
      simp [hds, hmem]
    have hfidL : (lowerS ("mp3_" ++ ds)).data = 'm' :: 'p' :: '3' :: '_' :: ds.data := by
      show lowerL ("mp3_" ++ ds).data = _
      rw [hfdata]
      simp only [lowerL, List.map_cons]
      rw [show lowerC 'm' = 'm' from by decide, show lowerC 'p' = 'p' from by decide,
        show lowerC '3' = '3' from by decide, show lowerC '_' = '_' from by decide]
      have := digits_lower ds.data hdig
      simp only [lowerL] at this
      rw [this]
    have hdis : ∀ t : String, t.data ≠ 'm' :: 'p' :: '3' :: '_' :: ds.data →
        lowerS ("mp3_" ++ ds) ≠ t := by
      intro t ht he
      exact ht (by rw [← he, hfidL])
    have hne1 : lowerS ("mp3_" ++ ds) ≠ "audio" := by
      apply hdis
      rw [show "audio".data = ['a', 'u', 'd', 'i', 'o'] from rfl]
      simp
    have hne2 : lowerS ("mp3_" ++ ds) ≠ "bestaudio" := by
      apply hdis
      rw [show "bestaudio".data = ['b', 'e', 's', 't', 'a', 'u', 'd', 'i', 'o'] from rfl]
      simp
    have hne3 : lowerS ("mp3_" ++ ds) ≠ "audio_best" := by
      apply hdis
      rw [show "audio_best".data = ['a', 'u', 'd', 'i', 'o', '_', 'b', 'e', 's', 't'] from rfl]
      simp
    have hmatch : mp3BitrateMatch (lowerS ("mp3_" ++ ds)) = some (digitsVal ds.data) := by
      unfold mp3BitrateMatch
      rw [hfidL]
      show (if 2 ≤ ds.data.length ∧ ds.data.length ≤ 3 ∧ ds.data.all isDigitC = true
            then some (digitsVal ds.data) else none) = some (digitsVal ds.data)
      rw [if_pos ⟨hlen.1, hlen.2, hdig⟩]
    refine ⟨?_, le_max_left _ _, max_le (by norm_num) (min_le_left _ _), by omega⟩
    unfold prepareDownloadOptions
    rw [if_neg (by rw [himg]; exact Bool.false_ne_true)]
    rw [if_pos ⟨hne, hplus⟩, htop, hitems]
    show (if _ ∨ _ ∨ _ then _ else _) = _
    rw [if_neg (by rintro (h | h | h) <;> [exact hne1 h; exact hne2 h; exact hne3 h])]
    rw [if_pos (Or.inr (Or.inr (by rw [hmatch]; rfl)))]
    rw [hmatch]
    rfl
  · intro s probe hne hdig
    have hfdata : ("mp3_" ++ s).data = 'm' :: 'p' :: '3' :: '_' :: s.data := by
      rw [String.data_append]; rfl
    have hstart : startsWithS ("mp3_" ++ s) "mp3_" = true := by
      unfold startsWithS
      rw [hfdata, show "mp3_".data = ['m', 'p', '3', '_'] from rfl]
      simp [startsWithL]
    have hsplit : splitOnC '_' ("mp3_" ++ s).data = [['m', 'p', '3'], s.data] := by
      rw [hfdata]
      have hnodash : s.data.contains '_' = false :=
        digits_not_contains s.data hdig '_' (by decide)
      rw [show splitOnC '_' ('m' :: 'p' :: '3' :: '_' :: s.data) =
          (match splitOnC '_' ('p' :: '3' :: '_' :: s.data) with
           | r :: rs => ('m' :: r) :: rs
           | [] => [['m']]) from by rw [splitOnC, if_neg (by decide)]]
      rw [show splitOnC '_' ('p' :: '3' :: '_' :: s.data) =
          (match splitOnC '_' ('3' :: '_' :: s.data) with
           | r :: rs => ('p' :: r) :: rs
           | [] => [['p']]) from by rw [splitOnC, if_neg (by decide)]]
      rw [show splitOnC '_' ('3' :: '_' :: s.data) =
          (match splitOnC '_' ('_' :: s.data) with
           | r :: rs => ('3' :: r) :: rs
           | [] => [['3']]) from by rw [splitOnC, if_neg (by decide)]]
      rw [show splitOnC '_' ('_' :: s.data) = [] :: splitOnC '_' s.data from by
        rw [splitOnC, if_pos rfl]]
      rw [splitOnC_no_sep '_' s.data hnodash]
    constructor
    · unfold ytPrepareDownload
      rw [if_pos hstart, hsplit]
      show some ((pyIntL s.data).getD 192) = _
      rw [pyIntL_digits s.data hne hdig]
      rfl
    · unfold ytPrepareDownload
      rw [if_pos hstart]

/-- Claim C7 amended, witness: `mp3_500` is clamped to 320 with the clamp
flagged by the generic planner, while the YouTube planner keeps 500. -/
theorem claim_C7_amended_witness :
    prepareDownloadOptions "instagram" ("mp3_" ++ "500") ({} : AnalyzeResult) none =
      .ok (.mp3Extract 320 true) ∧
    (ytPrepareDownload ("mp3_" ++ "500") (.error ())).mp3Quality = some 500 := by
  constructor
  · have h := (claim_C7_amended.1 "instagram" ({} : AnalyzeResult) none "500"
      (by decide) (by decide) rfl rfl).1
    rw [h]
    congr 1
  · have h := (claim_C7_amended.2 "500" (.error ()) (by decide) (by decide)).1
    rw [h]
    decide

/-! ## Facts about `breakAt`, `takeWhile`/`dropWhile` and case folding -/

theorem breakAt_append (sep : Char) (l1 l2 : List Char)
    (h : l1.contains sep = false) : breakAt sep (l1 ++ sep :: l2) = some (l1, l2) := by
  induction l1 with
  | nil => simp [breakAt]
  | cons c cs ih =>
    simp only [List.contains_cons, Bool.or_eq_false_iff] at h
    have hc : ¬ c = sep := by
      intro he; subst he; simp at h
    simp only [List.cons_append, breakAt, if_neg hc]
    have hi := ih h.2
    simp only [List.append_eq] at hi ⊢
    rw [hi]
    rfl

theorem breakAt_none (sep : Char) (l : List Char) (h : l.contains sep = false) :
    breakAt sep l = none := by
  induction l with
  | nil => rfl
  | cons c cs ih =>
    simp only [List.contains_cons, Bool.or_eq_false_iff] at h
    have hc : ¬ c = sep := by
      intro he; subst he; simp at h
    simp [breakAt, if_neg hc, ih h.2]

theorem breakAt_some_spec (sep : Char) : ∀ (l a b : List Char),
    breakAt sep l = some (a, b) → l = a ++ sep :: b ∧ a.contains sep = false := by
  intro l
  induction l with
  | nil => intro a b h; simp [breakAt] at h
  | cons c cs ih =>
    intro a b h
    by_cases hc : c = sep
    · subst hc
      simp only [breakAt, if_pos rfl, Option.some.injEq, Prod.mk.injEq] at h
      obtain ⟨rfl, rfl⟩ := h
      simp
    · simp only [breakAt, if_neg hc] at h
      cases hrec : breakAt sep cs with
      | none => rw [hrec] at h; simp at h
      | some p =>
        rw [hrec] at h
        simp only [Option.map_some', Option.some.injEq] at h
        obtain ⟨a', b'⟩ := p
        obtain ⟨h1, h2⟩ := ih a' b' hrec
        simp only [Prod.mk.injEq] at h
        obtain ⟨ha, hb⟩ := h
        subst ha; subst hb
        refine ⟨by rw [h1]; rfl, ?_⟩
        simp only [List.contains_cons, Bool.or_eq_false_iff]
        exact ⟨beq_eq_false_iff_ne.mpr (fun he => hc he.symm), h2⟩

theorem breakAt_none_spec (sep : Char) : ∀ l : List Char,
    breakAt sep l = none → l.contains sep = false := by
  intro l
  induction l with
  | nil => intro _; rfl
  | cons c cs ih =>
    intro h
    by_cases hc : c = sep
    · subst hc; simp [breakAt] at h
    · simp only [breakAt, if_neg hc] at h
      cases hrec : breakAt sep cs with
      | none =>
        simp only [List.contains_cons, Bool.or_eq_false_iff]
        refine ⟨beq_eq_false_iff_ne.mpr (fun he => hc he.symm), ih hrec⟩
      | some p => rw [hrec] at h; simp at h

theorem takeWhile_append_all (p : Char → Bool) (l1 l2 : List Char)
    (h : l1.all p = true) : (l1 ++ l2).takeWhile p = l1 ++ l2.takeWhile p := by
  induction l1 with
  | nil => rfl
  | cons c cs ih =>
    simp only [List.all_cons, Bool.and_eq_true] at h
    simp [List.takeWhile_cons, h.1, ih h.2]

theorem dropWhile_append_all (p : Char → Bool) (l1 l2 : List Char)
    (h : l1.all p = true) : (l1 ++ l2).dropWhile p = l2.dropWhile p := by
  induction l1 with
  | nil => rfl
  | cons c cs ih =>
    simp only [List.all_cons, Bool.and_eq_true] at h
    simp [List.dropWhile_cons, h.1, ih h.2]

theorem dropWhile_head_false (p : Char → Bool) : ∀ (l : List Char) (c : Char),
    (l.dropWhile p).head? = some c → p c = false := by
  intro l
  induction l with
  | nil => intro c h; simp at h
  | cons d ds ih =>
    intro c h
    by_cases hd : p d = true
    · rw [List.dropWhile_cons, if_pos hd] at h
      exact ih c h
    · rw [List.dropWhile_cons, if_neg hd] at h
      simp only [List.head?_cons, Option.some.injEq] at h
      subst h
      exact Bool.eq_false_iff.mpr hd

theorem contains_append_or (c : Char) (l1 l2 : List Char) :
    (l1 ++ l2).contains c = (l1.contains c || l2.contains c) := by
  induction l1 with
  | nil => simp
  | cons d ds ih => simp [List.contains_cons, ih, Bool.or_assoc]

theorem contains_of_head (l : List Char) (c : Char) (h : l.head? = some c) :
    l.contains c = true := by
  cases l with
  | nil => simp at h
  | cons d ds =>
    simp only [List.head?_cons, Option.some.injEq] at h
    subst h
    simp [List.contains_cons]

theorem startsWith_slash_of_head (l : List Char) (h : l.head? = some '/') :
    startsWithL ['/'] l = true := by
  cases l with
  | nil => simp at h
  | cons c cs =>
    simp only [List.head?_cons, Option.some.injEq] at h
    subst h
    simp [startsWithL]

/-! Case-folding facts. -/

theorem lowerC_toNat_upper (c : Char) (h : 65 ≤ c.toNat ∧ c.toNat ≤ 90) :
    (lowerC c).toNat = c.toNat + 32 := by
  unfold lowerC
  rw [if_pos h]
  show (Char.ofNat (c.toNat + 32)).toNat = c.toNat + 32
  unfold Char.ofNat
  rw [dif_pos (Or.inl (by omega))]
  rfl

theorem charToNat_inj (a b : Char) (h : a.toNat = b.toNat) : a = b := by
  apply Char.eq_of_val_eq
  apply UInt32.ext
  exact h

theorem lowerC_eq_self (c : Char) (h : ¬ (65 ≤ c.toNat ∧ c.toNat ≤ 90)) :
    lowerC c = c := by
  unfold lowerC
  rw [if_neg h]

theorem lowerC_idem (c : Char) : lowerC (lowerC c) = lowerC c := by
  by_cases h : 65 ≤ c.toNat ∧ c.toNat ≤ 90
  · apply lowerC_eq_self
    have := lowerC_toNat_upper c h
    omega
  · rw [lowerC_eq_self c h]
    exact lowerC_eq_self c h

theorem lowerL_idem (l : List Char) : lowerL (lowerL l) = lowerL l := by
  simp only [lowerL, List.map_map]
  apply List.map_congr_left
  intro c _
  exact lowerC_idem c

/-- A character not in either letter range is fixed by, and only produced
from itself by, `lowerC`. -/
theorem lowerC_fix_iff (c t : Char) (h1 : ¬(97 ≤ t.toNat ∧ t.toNat ≤ 122))
    (h2 : ¬(65 ≤ t.toNat ∧ t.toNat ≤ 90)) : (lowerC c = t ↔ c = t) := by
  constructor
  · intro he
    by_cases hc : 65 ≤ c.toNat ∧ c.toNat ≤ 90
    · have := lowerC_toNat_upper c hc
      rw [he] at this
      omega
    · rw [lowerC_eq_self c hc] at he
      exact he
  · intro he
    subst he
    exact lowerC_eq_self c h2

theorem contains_lowerL (l : List Char) (t : Char)
    (h1 : ¬(97 ≤ t.toNat ∧ t.toNat ≤ 122)) (h2 : ¬(65 ≤ t.toNat ∧ t.toNat ≤ 90)) :
    (lowerL l).contains t = l.contains t := by
  induction l with
  | nil => rfl
  | cons c cs ih =>
    simp only [lowerL, List.map_cons, List.contains_cons] at ih ⊢
    rw [ih]
    congr 1
    cases hb : (t == lowerC c) with
    | true =>
      have : t = lowerC c := eq_of_beq hb
      have : c = t := (lowerC_fix_iff c t h1 h2).mp this.symm
      simp [this]
    | false =>
      cases hb2 : (t == c) with
      | true =>
        have hct : c = t := (eq_of_beq hb2).symm
        subst hct
        have : lowerC c = c := (lowerC_fix_iff c c h1 h2).mpr rfl
        rw [this] at hb
        simp at hb
      | false => rfl

theorem isDigitC_lowerC (c : Char) : isDigitC (lowerC c) = isDigitC c := by
  by_cases h : 65 ≤ c.toNat ∧ c.toNat ≤ 90
  · have ht := lowerC_toNat_upper c h
    simp only [isDigitC, ht]
    have e1 : (decide (48 ≤ c.toNat + 32) && decide (c.toNat + 32 ≤ 57)) = false := by
      simp only [Bool.and_eq_false_iff, decide_eq_false_iff_not]
      omega
    have e2 : (decide (48 ≤ c.toNat) && decide (c.toNat ≤ 57)) = false := by
      simp only [Bool.and_eq_false_iff, decide_eq_false_iff_not]
      omega
    rw [e1, e2]
  · rw [lowerC_eq_self c h]

theorem isProfileChar_lowerC (c : Char) : isProfileChar (lowerC c) = isProfileChar c := by
  by_cases h : 65 ≤ c.toNat ∧ c.toNat ≤ 90
  · have ht := lowerC_toNat_upper c h
    simp only [isProfileChar, isAlphaC, ht]
    have e1 : (decide (65 ≤ c.toNat + 32) && decide (c.toNat + 32 ≤ 90) ||
        decide (97 ≤ c.toNat + 32) && decide (c.toNat + 32 ≤ 122)) = true := by
      simp only [Bool.or_eq_true, Bool.and_eq_true, decide_eq_true_eq]
      omega
    have e2 : (decide (65 ≤ c.toNat) && decide (c.toNat ≤ 90) ||
        decide (97 ≤ c.toNat) && decide (c.toNat ≤ 122)) = true := by
      simp only [Bool.or_eq_true, Bool.and_eq_true, decide_eq_true_eq]
      omega
    rw [e1, e2]
    simp
  · rw [lowerC_eq_self c h]

/-! ## Prefix, strip and URL-stage facts -/

theorem contains_true_of_mem (l : List Char) (c : Char) (h : c ∈ l) :
    l.contains c = true := by simpa using h

theorem prefix_head (l1 l : List Char) (h : l1 <+: l) :
    l1 = [] ∨ l1.head? = l.head? := by
  obtain ⟨t, rfl⟩ := h
  cases l1 <;> simp

theorem contains_of_prefix (l1 l : List Char) (c : Char) (h : l1 <+: l)
    (hc : l.contains c = false) : l1.contains c = false := by
  cases hcc : l1.contains c with
  | false => rfl
  | true =>
    have hm : c ∈ l1 := by simpa using hcc
    have hml : c ∈ l := h.sublist.subset hm
    rw [contains_true_of_mem l c hml] at hc
    cases hc

theorem dropWhile_idem (p : Char → Bool) (x : List Char) :
    (x.dropWhile p).dropWhile p = x.dropWhile p := by
  induction x with
  | nil => rfl
  | cons c cs ih =>
    by_cases hc : p c = true
    · rw [List.dropWhile_cons, if_pos hc, ih]
    · rw [List.dropWhile_cons, if_neg hc, List.dropWhile_cons, if_neg hc]

theorem rstripSlash_prefix (l : List Char) : rstripSlash l <+: l := by
  have h1 : l.reverse.dropWhile (fun c => c = '/') <:+ l.reverse :=
    List.dropWhile_suffix _
  have h2 := List.reverse_prefix.mpr h1
  rwa [List.reverse_reverse] at h2

theorem rstripSlash_idem (l : List Char) :
    rstripSlash (rstripSlash l) = rstripSlash l := by
  unfold rstripSlash
  rw [List.reverse_reverse, dropWhile_idem]

theorem dropWhile_slash_lower (x : List Char) :
    (lowerL x).dropWhile (fun c => c = '/') =
      lowerL (x.dropWhile (fun c => c = '/')) := by
  induction x with
  | nil => rfl
  | cons c cs ih =>
    have hiff : (lowerC c = '/') ↔ (c = '/') := lowerC_fix_iff c '/' (by decide) (by decide)
    by_cases hc : c = '/'
    · subst hc
      have h2 : lowerC '/' = '/' := by decide
      simp only [lowerL, List.map_cons, h2] at ih ⊢
      rw [List.dropWhile_cons, List.dropWhile_cons,
        if_pos (show (decide (('/' : Char) = '/')) = true by decide),
        if_pos (show (decide (('/' : Char) = '/')) = true by decide)]
      exact ih
    · have h2 : ¬ lowerC c = '/' := fun he => hc (hiff.mp he)
      simp only [lowerL, List.map_cons]
      rw [List.dropWhile_cons, List.dropWhile_cons]
      simp [hc, h2, lowerL]

theorem lowerL_reverse (l : List Char) : (lowerL l).reverse = lowerL l.reverse := by
  simp [lowerL, List.map_reverse]

theorem rstrip_lower_comm (l : List Char) :
    rstripSlash (lowerL l) = lowerL (rstripSlash l) := by
  unfold rstripSlash
  rw [lowerL_reverse, dropWhile_slash_lower, lowerL_reverse]

theorem isNetlocEnd_cases (c : Char) (h : isNetlocEnd c = true) :
    c = '/' ∨ c = '?' ∨ c = '#' := by
  have h' : (c = '/' ∨ c = '?') ∨ c = '#' := by simpa [isNetlocEnd] using h
  tauto

theorem urlSplitFragPre (r2 : List Char) : (urlSplitFrag r2).1 <+: r2 := by
  unfold urlSplitFrag
  cases hb : breakAt '#' r2 with
  | none => exact List.prefix_refl _
  | some ab =>
    obtain ⟨a, b⟩ := ab
    obtain ⟨hsplit, _⟩ := breakAt_some_spec '#' r2 a b hb
    exact ⟨'#' :: b, hsplit.symm⟩

theorem urlSplitFrag_no_hash (r2 : List Char) :
    (urlSplitFrag r2).1.contains '#' = false := by
  unfold urlSplitFrag
  cases hb : breakAt '#' r2 with
  | none => exact breakAt_none_spec '#' r2 hb
  | some ab =>
    obtain ⟨a, b⟩ := ab
    exact (breakAt_some_spec '#' r2 a b hb).2

theorem urlSplitQueryPre (bf : List Char) : (urlSplitQuery bf).1 <+: bf := by
  unfold urlSplitQuery
  cases hb : breakAt '?' bf with
  | none => exact List.prefix_refl _
  | some ab =>
    obtain ⟨a, b⟩ := ab
    obtain ⟨hsplit, _⟩ := breakAt_some_spec '?' bf a b hb
    exact ⟨'?' :: b, hsplit.symm⟩

theorem urlSplitQuery_no_q (bf : List Char) :
    (urlSplitQuery bf).1.contains '?' = false := by
  unfold urlSplitQuery
  cases hb : breakAt '?' bf with
  | none => exact breakAt_none_spec '?' bf hb
  | some ab =>
    obtain ⟨a, b⟩ := ab
    exact (breakAt_some_spec '?' bf a b hb).2

/-- The path a parse produces carries no `?` or `#`, and when a netloc was
recognised it is empty or `/`-headed. -/
theorem urlparse_path_facts (u : List Char) :
    (urlparseLite u).path.contains '?' = false ∧
    (urlparseLite u).path.contains '#' = false ∧
    ((urlparseLite u).netloc ≠ [] →
      ((urlparseLite u).path = [] ∨ startsWithL ['/'] (urlparseLite u).path = true)) := by
  have hpath : (urlparseLite u).path =
      (urlSplitQuery (urlSplitFrag (urlSplitNetloc (urlSplitScheme u).2).2).1).1 := rfl
  have hnet : (urlparseLite u).netloc = (urlSplitNetloc (urlSplitScheme u).2).1 := rfl
  set r2 := (urlSplitNetloc (urlSplitScheme u).2).2 with hr2
  have hq : (urlparseLite u).path.contains '?' = false := by
    rw [hpath]; exact urlSplitQuery_no_q _
  have hpfx : (urlparseLite u).path <+: r2 := by
    rw [hpath]
    exact (urlSplitQueryPre _).trans (urlSplitFragPre _)
  have hhash : (urlparseLite u).path.contains '#' = false := by
    rw [hpath]
    exact contains_of_prefix _ _ '#' (urlSplitQueryPre _) (urlSplitFrag_no_hash _)
  refine ⟨hq, hhash, ?_⟩
  intro hnetne
  rcases prefix_head _ _ hpfx with hemp | hhead
  · exact Or.inl hemp
  cases hp : (urlparseLite u).path with
  | nil => exact Or.inl rfl
  | cons c cs =>
    right
    rw [hp] at hhead
    simp only [List.head?_cons] at hhead
    -- r2 comes from the // branch (netloc nonempty), so its head fails the
    -- netloc-continuation predicate
    have hbranch : startsWithL ['/', '/'] (urlSplitScheme u).2 = true := by
      by_contra hbr
      have : (urlSplitNetloc (urlSplitScheme u).2).1 = [] := by
        unfold urlSplitNetloc
        rw [if_neg (by simpa using hbr)]
      rw [hnet] at hnetne
      exact hnetne this
    have hr2eq : r2 = ((urlSplitScheme u).2.drop 2).dropWhile (fun c => !(isNetlocEnd c)) := by
      rw [hr2]
      unfold urlSplitNetloc
      rw [if_pos hbranch]
    have hcend : (!(isNetlocEnd c)) = false := by
      apply dropWhile_head_false (fun c => !(isNetlocEnd c))
        (((urlSplitScheme u).2.drop 2)) c
      rw [← hr2eq]
      exact hhead.symm
    have hcend' : isNetlocEnd c = true := by
      revert hcend; cases isNetlocEnd c <;> simp
    have hcpath : (urlparseLite u).path.contains c = true := by
      apply contains_true_of_mem
      rw [hp]; exact List.mem_cons_self _ _
    rcases isNetlocEnd_cases c hcend' with rfl | rfl | rfl
    · exact startsWith_slash_of_head _ (by simp)
    · rw [hcpath] at hq; cases hq
    · rw [hcpath] at hhash; cases hhash

/-! ## Round trip through the Instagram unparse/parse -/

theorem unparse_ig (p' : List Char) (h : p' = [] ∨ startsWithL ['/'] p' = true) :
    urlunparseLite "https".data "www.instagram.com".data p' [] =
      "https".data ++ ':' :: '/' :: '/' :: ("www.instagram.com".data ++ p') := by
  unfold urlunparseLite
  rw [if_pos (Or.inl (by decide : "www.instagram.com".data ≠ []))]
  have hinner : ¬ (p' ≠ [] ∧ ¬ startsWithL ['/'] p' = true) := by
    rcases h with h | h
    · intro hh; exact hh.1 h
    · intro hh; exact hh.2 h
  rw [if_neg hinner]
  rfl

theorem parse_unparse_ig (p' : List Char)
    (hsh : p' = [] ∨ startsWithL ['/'] p' = true)
    (hq : p'.contains '?' = false) (hh : p'.contains '#' = false) :
    urlparseLite (urlunparseLite "https".data "www.instagram.com".data p' []) =
      { scheme := "https".data, netloc := "www.instagram.com".data,
        path := p', query := [], fragment := [] } := by
  rw [unparse_ig p' hsh]
  have hscheme : urlSplitScheme
      ("https".data ++ ':' :: '/' :: '/' :: ("www.instagram.com".data ++ p')) =
      ("https".data, '/' :: '/' :: ("www.instagram.com".data ++ p')) := by
    unfold urlSplitScheme
    rw [breakAt_append ':' _ _ (by decide)]
    rfl
  have htk : p'.takeWhile (fun c => !(isNetlocEnd c)) = [] ∧
      p'.dropWhile (fun c => !(isNetlocEnd c)) = p' := by
    rcases hsh with rfl | hs
    · exact ⟨rfl, rfl⟩
    · cases p' with
      | nil => exact ⟨rfl, rfl⟩
      | cons c cs =>
        have hc : c = '/' := by
          simp only [startsWithL, Bool.and_eq_true, decide_eq_true_eq] at hs
          exact hs.1.symm
        subst hc
        constructor
        · rw [List.takeWhile_cons, if_neg (by decide)]
        · rw [List.dropWhile_cons, if_neg (by decide)]
  have hnetlocStage : urlSplitNetloc ('/' :: '/' :: ("www.instagram.com".data ++ p')) =
      ("www.instagram.com".data, p') := by
    unfold urlSplitNetloc
    rw [if_pos (by simp [startsWithL])]
    rw [show List.drop 2 ('/' :: '/' :: ("www.instagram.com".data ++ p')) =
        "www.instagram.com".data ++ p' from rfl]
    rw [takeWhile_append_all _ _ _ (by decide), dropWhile_append_all _ _ _ (by decide)]
    rw [htk.1, htk.2, List.append_nil]
  have hfragStage : urlSplitFrag p' = (p', []) := by
    unfold urlSplitFrag
    rw [breakAt_none '#' p' hh]
  have hqStage : urlSplitQuery p' = (p', []) := by
    unfold urlSplitQuery
    rw [breakAt_none '?' p' hq]
  simp only [urlparseLite, hscheme, hnetlocStage, hfragStage, hqStage]

/-! ## Invariance of the Instagram branch predicates under lowering -/

theorem all_profile_lower (cs : List Char) :
    (cs.map lowerC).all isProfileChar = cs.all isProfileChar := by
  induction cs with
  | nil => rfl
  | cons c cs ih => simp [isProfileChar_lowerC c, ih]

theorem igPostsPath_lower (p : List Char) :
    igPostsPath (lowerL p) = igPostsPath p := by
  unfold igPostsPath
  rw [lowerL_idem]

theorem igProfilePath_lower (p : List Char) :
    igProfilePath (lowerL p) = igProfilePath p := by
  cases p with
  | nil => rfl
  | cons c cs =>
    have e1 : (decide (lowerC c = '/')) = (decide (c = '/')) :=
      decide_eq_decide.mpr (lowerC_fix_iff c '/' (by decide) (by decide))
    have e2 : (decide ((cs.map lowerC) ≠ [])) = (decide (cs ≠ [])) :=
      decide_eq_decide.mpr (by simp)
    have e3 : (decide ((cs.map lowerC).length ≤ 30)) = (decide (cs.length ≤ 30)) :=
      decide_eq_decide.mpr (by simp)
    show (decide (lowerC c = '/') && decide ((cs.map lowerC) ≠ []) &&
        decide ((cs.map lowerC).length ≤ 30) && (cs.map lowerC).all isProfileChar) =
      (decide (c = '/') && decide (cs ≠ []) && decide (cs.length ≤ 30) &&
        cs.all isProfileChar)
    rw [e1, e2, e3, all_profile_lower]

theorem drop_lowerL (n : Nat) : ∀ l : List Char,
    (lowerL l).drop n = lowerL (l.drop n) := by
  induction n with
  | zero => intro l; rfl
  | succ n ih =>
    intro l
    cases l with
    | nil => rfl
    | cons c cs => exact ih cs

theorem igTagsPath_lower (p : List Char) :
    igTagsPath (lowerL p) = igTagsPath p := by
  unfold igTagsPath
  rw [lowerL_idem, drop_lowerL]
  have e1 : (decide (lowerL (p.drop 14) ≠ [])) = (decide (p.drop 14 ≠ [])) :=
    decide_eq_decide.mpr (by simp [lowerL])
  have e2 : (lowerL (p.drop 14)).contains '/' = (p.drop 14).contains '/' :=
    contains_lowerL _ '/' (by decide) (by decide)
  rw [e1, e2]

theorem takeWhile_digit_lower (l : List Char) :
    (lowerL l).takeWhile isDigitC = lowerL (l.takeWhile isDigitC) := by
  induction l with
  | nil => rfl
  | cons c cs ih =>
    show List.takeWhile isDigitC (lowerC c :: cs.map lowerC) = _
    rw [List.takeWhile_cons, List.takeWhile_cons, isDigitC_lowerC]
    by_cases hc : isDigitC c = true
    · rw [if_pos hc, if_pos hc]
      show lowerC c :: (lowerL cs).takeWhile isDigitC = _
      rw [ih]
      rfl
    · rw [if_neg hc, if_neg hc]
      rfl

theorem igLocTail_lower (l : List Char) : igLocTail (lowerL l) = igLocTail l := by
  cases l with
  | nil => rfl
  | cons c seg =>
    have e1 : (decide (lowerC c = '/')) = (decide (c = '/')) :=
      decide_eq_decide.mpr (lowerC_fix_iff c '/' (by decide) (by decide))
    have e2 : (decide ((seg.map lowerC) ≠ [])) = (decide (seg ≠ [])) :=
      decide_eq_decide.mpr (by simp)
    have e3 : (seg.map lowerC).contains '/' = seg.contains '/' :=
      contains_lowerL _ '/' (by decide) (by decide)
    show (decide (lowerC c = '/') && decide ((seg.map lowerC) ≠ []) &&
        !((seg.map lowerC).contains '/')) =
      (decide (c = '/') && decide (seg ≠ []) && !(seg.contains '/'))
    rw [e1, e2, e3]

theorem igLocPath_lower (p : List Char) :
    igLocPath (lowerL p) = igLocPath p := by
  simp only [igLocPath]
  rw [lowerL_idem, drop_lowerL, takeWhile_digit_lower]
  have e1 : (decide (lowerL ((p.drop 19).takeWhile isDigitC) ≠ [])) =
      (decide ((p.drop 19).takeWhile isDigitC ≠ [])) :=
    decide_eq_decide.mpr (by simp [lowerL])
  have hlen : (lowerL ((p.drop 19).takeWhile isDigitC)).length =
      ((p.drop 19).takeWhile isDigitC).length := by simp [lowerL]
  rw [e1, hlen, drop_lowerL, igLocTail_lower]

theorem lower_starts_slash (p : List Char) (h : startsWithL ['/'] p = true) :
    startsWithL ['/'] (lowerL p) = true := by
  cases p with
  | nil => simp [startsWithL] at h
  | cons c cs =>
    simp only [startsWithL, Bool.and_eq_true, decide_eq_true_eq] at h
    have hc : c = '/' := h.1.symm
    subst hc
    show startsWithL ['/'] (lowerC '/' :: cs.map lowerC) = true
    rw [show lowerC '/' = '/' from by decide]
    simp [startsWithL]

/-- One application of the Instagram normalizer to an already-canonical
`https://www.instagram.com<p'>` URL re-dispatches on `p'` alone. -/
theorem igNormalize_unparse (p' : List Char)
    (hsh : p' = [] ∨ startsWithL ['/'] p' = true)
    (hq : p'.contains '?' = false) (hh : p'.contains '#' = false)
    (hr : rstripSlash p' = p') :
    normalizeInstagramUrl (urlunparseLite "https".data "www.instagram.com".data p' []) =
      (if igPostsPath p' then
        urlunparseLite "https".data "www.instagram.com".data p' []
       else if igProfilePath p' then
        urlunparseLite "https".data "www.instagram.com".data (lowerL p') []
       else if igTagsPath p' then
        urlunparseLite "https".data "www.instagram.com".data (lowerL p') []
       else if igLocPath p' then
        urlunparseLite "https".data "www.instagram.com".data (lowerL p') []
       else urlunparseLite "https".data "www.instagram.com".data p' []) := by
  have hp := parse_unparse_ig p' hsh hq hh
  have hhost : igIsHost "www.instagram.com".data = true := by decide
  simp only [normalizeInstagramUrl, hp, hhost, if_true, hr]

/-- Claim C10: applying the Instagram URL normalizer twice gives the same
result as applying it once, and a URL whose host is not an Instagram
domain (per the code's own host test) is returned unchanged. -/
theorem claim_C10 : ∀ u : List Char,
    normalizeInstagramUrl (normalizeInstagramUrl u) = normalizeInstagramUrl u ∧
    (igIsHost (urlparseLite u).netloc = false → normalizeInstagramUrl u = u) := by
  intro u
  have hnothost : ∀ v : List Char, igIsHost (urlparseLite v).netloc = false →
      normalizeInstagramUrl v = v := by
    intro v hv
    simp only [normalizeInstagramUrl, hv, Bool.false_eq_true, if_false]
  refine ⟨?_, hnothost u⟩
  by_cases hhost : igIsHost (urlparseLite u).netloc = true
  · obtain ⟨hq0, hh0, hsh0⟩ := urlparse_path_facts u
    have hnetne : (urlparseLite u).netloc ≠ [] := by
      intro he
      rw [he] at hhost
      exact absurd hhost (by decide)
    have hsh1 := hsh0 hnetne
    set path := rstripSlash (urlparseLite u).path with hpdef
    have hpfx : path <+: (urlparseLite u).path := rstripSlash_prefix _
    have hq : path.contains '?' = false := contains_of_prefix _ _ '?' hpfx hq0
    have hh : path.contains '#' = false := contains_of_prefix _ _ '#' hpfx hh0
    have hsh : path = [] ∨ startsWithL ['/'] path = true := by
      rcases hsh1 with hemp | hst
      · left; rw [hpdef, hemp]; rfl
      · rcases prefix_head _ _ hpfx with hemp | hheads
        · exact Or.inl hemp
        · cases hP : (urlparseLite u).path with
          | nil => left; rw [hpdef, hP]; rfl
          | cons c cs =>
            rw [hP] at hst
            simp only [startsWithL, Bool.and_eq_true, decide_eq_true_eq] at hst
            have hc : c = '/' := hst.1.symm
            subst hc
            right
            apply startsWith_slash_of_head
            rw [hheads, hP]
            rfl
    have hr : rstripSlash path = path := by
      rw [hpdef]; exact rstripSlash_idem _
    have hnorm1 : normalizeInstagramUrl u =
        (if igPostsPath path then
          urlunparseLite "https".data "www.instagram.com".data path []
         else if igProfilePath path then
          urlunparseLite "https".data "www.instagram.com".data (lowerL path) []
         else if igTagsPath path then
          urlunparseLite "https".data "www.instagram.com".data (lowerL path) []
         else if igLocPath path then
          urlunparseLite "https".data "www.instagram.com".data (lowerL path) []
         else urlunparseLite "https".data "www.instagram.com".data path []) := by
      simp only [normalizeInstagramUrl, hhost, if_true, hpdef]
    have hshL : lowerL path = [] ∨ startsWithL ['/'] (lowerL path) = true := by
      rcases hsh with hemp | hst
      · left; rw [hemp]; rfl
      · exact Or.inr (lower_starts_slash path hst)
    have hqL : (lowerL path).contains '?' = false := by
      rw [contains_lowerL path '?' (by decide) (by decide)]; exact hq
    have hhL : (lowerL path).contains '#' = false := by
      rw [contains_lowerL path '#' (by decide) (by decide)]; exact hh
    have hrL : rstripSlash (lowerL path) = lowerL path := by
      rw [rstrip_lower_comm, hr]
    by_cases h1 : igPostsPath path = true
    · rw [hnorm1, if_pos h1, igNormalize_unparse path hsh hq hh hr, if_pos h1]
    · rw [hnorm1, if_neg (by simp [h1])]
      by_cases h2 : igProfilePath path = true
      · rw [if_pos h2, igNormalize_unparse (lowerL path) hshL hqL hhL hrL]
        rw [if_neg (by rw [igPostsPath_lower, show igPostsPath path = false from
          Bool.eq_false_iff.mpr h1]; exact Bool.false_ne_true)]
        rw [if_pos (by rw [igProfilePath_lower]; exact h2)]
        rw [lowerL_idem]
      · rw [if_neg (by simp [h2])]
        by_cases h3 : igTagsPath path = true
        · rw [if_pos h3, igNormalize_unparse (lowerL path) hshL hqL hhL hrL]
          rw [if_neg (by rw [igPostsPath_lower, show igPostsPath path = false from
          Bool.eq_false_iff.mpr h1]; exact Bool.false_ne_true)]
          rw [if_neg (by rw [igProfilePath_lower, show igProfilePath path = false from
            Bool.eq_false_iff.mpr h2]; exact Bool.false_ne_true)]
          rw [if_pos (by rw [igTagsPath_lower]; exact h3)]
          rw [lowerL_idem]
        · rw [if_neg (by simp [h3])]
          by_cases h4 : igLocPath path = true
          · rw [if_pos h4, igNormalize_unparse (lowerL path) hshL hqL hhL hrL]
            rw [if_neg (by rw [igPostsPath_lower, show igPostsPath path = false from
          Bool.eq_false_iff.mpr h1]; exact Bool.false_ne_true)]
            rw [if_neg (by rw [igProfilePath_lower, show igProfilePath path = false from
              Bool.eq_false_iff.mpr h2]; exact Bool.false_ne_true)]
            rw [if_neg (by rw [igTagsPath_lower, show igTagsPath path = false from
              Bool.eq_false_iff.mpr h3]; exact Bool.false_ne_true)]
            rw [if_pos (by rw [igLocPath_lower]; exact h4)]
            rw [lowerL_idem]
          · rw [if_neg (by simp [h4])]
            rw [igNormalize_unparse path hsh hq hh hr]
            rw [if_neg (by simp [h1]), if_neg (by simp [h2]), if_neg (by simp [h3]),
              if_neg (by simp [h4])]
  · have hfalse : igIsHost (urlparseLite u).netloc = false := by
      revert hhost; cases igIsHost (urlparseLite u).netloc <;> simp
    rw [hnothost u hfalse]
    exact hnothost u hfalse

/-- Claim C10 witness: a concrete non-Instagram URL is returned unchanged
(and normalization of an Instagram URL is concretely idempotent). -/
theorem claim_C10_witness :
    normalizeInstagramUrl "https://example.com/x".data = "https://example.com/x".data ∧
    normalizeInstagramUrl (normalizeInstagramUrl "http://Instagram.com/SomeUser/".data) =
      normalizeInstagramUrl "http://Instagram.com/SomeUser/".data := by
  constructor
  · exact (claim_C10 "https://example.com/x".data).2 (by decide)
  · exact (claim_C10 "http://Instagram.com/SomeUser/".data).1

theorem analyzePlatformT_patfail (env : ExtractEnv) (thumbF : RawItem → Option String)
    (platform : String) (patterns : List (List Char → Bool)) (url : List Char)
    (hne : patterns ≠ [])
    (hfail : patterns.all (fun q => !(q url)) = true) :
    analyzePlatformT env thumbF platform patterns url =
      (.error (.valueError ("Invalid " ++ pyCapitalize platform ++ " URL")), []) := by
  cases patterns with
  | nil => exact absurd rfl hne
  | cons p ps => simp [analyzePlatformT, hfail]

theorem redditPatterns_ne_nil : redditPatterns ≠ [] := by
  unfold redditPatterns
  exact List.cons_ne_nil _ _

theorem redditFetchText_events (renv : RedditEnv) (url : List Char)
    (f : List Char → Option (Int × Option OgPage))
    (hclient : renv.httpxGet = some f) :
    ∃ tl, (redditFetchText renv url).2 = NetEvent.httpGet url :: tl := by
  simp only [redditFetchText, fetchOne, hclient]
  rcases hfu : f url with _ | ⟨st, body⟩
  · refine ⟨(fetchOne renv.requestsGet url).2, ?_⟩
    simp [fetchOne]
  · by_cases h4 : st < 400
    · refine ⟨[], ?_⟩
      simp [h4]
    · refine ⟨(fetchOne renv.requestsGet url).2, ?_⟩
      simp [h4, fetchOne]

theorem redditFallbackResult_not_valueError (nm : List Char) (e : AErr)
    (t : Option (Option OgPage)) (m : String) :
    redditFallbackResult nm e t ≠ .error (.valueError m) := by
  rcases t with _ | op
  · simp [redditFallbackResult]
  · rcases op with _ | page
    · simp [redditFallbackResult]
    · rcases hv : pyOrOptS page.ogVideoSecureUrl
        (pyOrOptS page.ogVideoUrl page.ogVideo) with _ | v
      · rcases hi : pyOrOptS page.ogImage page.twitterImage with _ | img
        · simp [redditFallbackResult, hv, hi]
        · simp [redditFallbackResult, hv, hi]
      · simp [redditFallbackResult, hv]

/-- Claim C8 counterexample: on a URL failing every Reddit pattern, the
Reddit resolver performs a network page fetch and surfaces a
`ConnectionError`, not the caller-fault `ValueError` with zero network
calls the claim requires. -/
theorem claim_C8_counterexample :
    (redditAnalyze c8Env c8REnv (fun _ => none) "https://example.com/foo".data).1 =
      .error (.connectionError ("Reddit analyze failed: " ++
        "Reddit: No media found via OpenGraph")) ∧
    (redditAnalyze c8Env c8REnv (fun _ => none) "https://example.com/foo".data).2 =
      [NetEvent.httpGet "https://example.com/foo".data] :=
  ⟨rfl, rfl⟩

/-- Claim C8 (amended): the generic `analyze_platform` does return the
caller-fault `ValueError` with zero network calls when every pattern of a
nonempty pattern list fails; but the Reddit resolver catches that error
and, whenever an HTTP client is available, performs a fallback OpenGraph
page fetch on the very same pattern-failing URL — and never surfaces a
`ValueError` at all. -/
theorem claim_C8_amended (env : ExtractEnv) (renv : RedditEnv)
    (thumbF : RawItem → Option String) (platform : String)
    (patterns : List (List Char → Bool)) (url ru : List Char)
    (f : List Char → Option (Int × Option OgPage))
    (hne : patterns ≠ [])
    (hfail : patterns.all (fun q => !(q url)) = true)
    (hrfail : redditPatterns.all (fun q => !(q (normalizeRedditUrl ru))) = true)
    (hclient : renv.httpxGet = some f) :
    analyzePlatformT env thumbF platform patterns url =
      (.error (.valueError ("Invalid " ++ pyCapitalize platform ++ " URL")), []) ∧
    (redditAnalyze env renv thumbF ru).2 ≠ [] ∧
    ∀ m, (redditAnalyze env renv thumbF ru).1 ≠ .error (.valueError m) := by
  have hra := analyzePlatformT_patfail env thumbF "reddit" redditPatterns
    (normalizeRedditUrl ru) redditPatterns_ne_nil hrfail
  obtain ⟨tl, htl⟩ := redditFetchText_events renv (normalizeRedditUrl ru) f hclient
  refine ⟨analyzePlatformT_patfail env thumbF platform patterns url hne hfail, ?_, ?_⟩
  · simp only [redditAnalyze, hra, htl, List.nil_append]
    exact List.cons_ne_nil _ _
  · intro m
    simp only [redditAnalyze, hra]
    exact redditFallbackResult_not_valueError _ _ _ m

/-- Claim C8 amended witness: the concrete non-Reddit URL
`https://example.org/a` gets the pattern-guard `ValueError` with an empty
trace from `analyze_platform`, while the Reddit resolver run on it
produces a nonempty network trace. -/
theorem claim_C8_amended_witness :
    analyzePlatformT c8Env (fun _ => none) "reddit" redditPatterns c8WUrl =
      (.error (.valueError ("Invalid " ++ pyCapitalize "reddit" ++ " URL")), []) ∧
    (redditAnalyze c8Env c8REnv (fun _ => none) c8WUrl).2 ≠ [] := by
  have h := claim_C8_amended c8Env c8REnv (fun _ => none) "reddit" redditPatterns
    c8WUrl c8WUrl c8F redditPatterns_ne_nil (by decide) (by decide) rfl
  exact ⟨h.1, h.2.1⟩

/-- Claim C9 counterexample: on the Facebook exception-path fallback the
single returned video format is tagged `source = "direct"`, not the
`"direct-scrape"` tag the claim names. -/
theorem claim_C9_counterexample :
    (fbAnalyze c9Env c9FEnv (fun _ => none) c9Url).1 =
      .ok (fbFallbackResult c9Url c9Mp4) ∧
    (fbFallbackResult c9Url c9Mp4).mp4.map (fun g => g.source) = [some "direct"] ∧
    (some "direct" : Option String) ≠ some "direct-scrape" :=
  ⟨rfl, rfl, by decide⟩

/-- Claim C9 (amended): when primary extraction raises and the fallback
yields one playable URL, both fallback paths return a minimal single-item
result — `count = 1`, `instant_available = true`, exactly one video
format — whose source tag is `"direct"` on the Facebook instant-fallback
path and `"opengraph"` on the Reddit OpenGraph path. -/
theorem claim_C9_amended (env : ExtractEnv) (fenv : FbEnv) (renv : RedditEnv)
    (thumbF : RawItem → Option String) (normalized ru mp4url : List Char)
    (v : String) (page : OgPage) (e e2 : AErr)
    (hforce : fenv.forceFallback = false)
    (hfail : (analyzePlatformT env thumbF "facebook" fbPatterns normalized).1 =
      .error e)
    (hhelp : fenv.helperMp4 normalized = .ok (some mp4url))
    (hrerr : (analyzePlatformT env thumbF "reddit" redditPatterns
      (normalizeRedditUrl ru)).1 = .error e2)
    (hpage : (redditFetchText renv (normalizeRedditUrl ru)).1 = some (some page))
    (hv : pyOrOptS page.ogVideoSecureUrl (pyOrOptS page.ogVideoUrl page.ogVideo) =
      some v) :
    (fbAnalyze env fenv thumbF normalized).1 =
      .ok (fbFallbackResult normalized mp4url) ∧
    (fbFallbackResult normalized mp4url).count = 1 ∧
    (fbFallbackResult normalized mp4url).instant_available = true ∧
    (fbFallbackResult normalized mp4url).mp4 = [fbDirectFmt mp4url] ∧
    (fbDirectFmt mp4url).source = some "direct" ∧
    (redditAnalyze env renv thumbF ru).1 =
      .ok (redditOgVideoResult (normalizeRedditUrl ru)
        (pyOrS page.ogTitle "Reddit Media")
        (pyOrOptS page.ogImage page.twitterImage) v) ∧
    (redditOgVideoResult (normalizeRedditUrl ru) (pyOrS page.ogTitle "Reddit Media")
      (pyOrOptS page.ogImage page.twitterImage) v).count = 1 ∧
    (redditOgVideoResult (normalizeRedditUrl ru) (pyOrS page.ogTitle "Reddit Media")
      (pyOrOptS page.ogImage page.twitterImage) v).instant_available = true ∧
    (redditOgVideoResult (normalizeRedditUrl ru) (pyOrS page.ogTitle "Reddit Media")
      (pyOrOptS page.ogImage page.twitterImage) v).mp4 = [ogVideoFmt v] ∧
    (ogVideoFmt v).source = some "opengraph" := by
  refine ⟨?_, rfl, rfl, rfl, rfl, ?_, rfl, rfl, rfl, rfl⟩
  · simp only [fbAnalyze, hforce, Bool.false_eq_true, if_false, fbMainFlow,
      hfail, hhelp]
  · simp only [redditAnalyze, hrerr, hpage, redditFallbackResult, hv]

/-- Claim C9 amended witness: a concrete run in which the extractor is
down and the fallbacks find a playable URL, showing the minimal
single-item shape with tags `direct` and `opengraph`. -/
theorem claim_C9_amended_witness :
    (fbAnalyze c9Env c9FEnv (fun _ => none) c9Url).1 =
      .ok (fbFallbackResult c9Url c9Mp4) ∧
    (fbFallbackResult c9Url c9Mp4).count = 1 ∧
    (fbFallbackResult c9Url c9Mp4).instant_available = true ∧
    (fbDirectFmt c9Mp4).source = some "direct" ∧
    (redditAnalyze c9Env c9REnv (fun _ => none) c9Ru).1 =
      .ok (redditOgVideoResult (normalizeRedditUrl c9Ru)
        (pyOrS c9Page.ogTitle "Reddit Media")
        (pyOrOptS c9Page.ogImage c9Page.twitterImage) c9V) ∧
    (ogVideoFmt c9V).source = some "opengraph" := by
  have h := claim_C9_amended c9Env c9FEnv c9REnv (fun _ => none) c9Url c9Ru c9Mp4
    c9V c9Page (.connectionError "extractor down") (.connectionError "extractor down")
    rfl rfl rfl rfl rfl rfl
  exact ⟨h.1, h.2.1, h.2.2.1, h.2.2.2.2.1, h.2.2.2.2.2.1,
    h.2.2.2.2.2.2.2.2.2⟩

end Medidown
